import Mathlib

/-!
Verification of the Adaptive Retrieval Engine of the ForceEqualAI repository.

The TypeScript sources are shallowly embedded in Lean:
* JavaScript numbers are modelled as `ℚ` (exact arithmetic; no claim here
  depends on floating-point rounding).
* `Math.sqrt` is an opaque numeric primitive and is modelled as an explicit
  function parameter `sqrt : ℚ → ℚ`; theorems that need a property of the
  square root state it as a hypothesis.
* Strings are Lean `String`s.  `text.toLowerCase()` and `text.split(/\s+/)`
  are modelled by `lowerStr` and `jsSplitWs` below, written by structural
  recursion on the character list so that the kernel can evaluate them.
  `jsSplitWs` reproduces the JavaScript semantics of `split(/\s+/)`:
  maximal whitespace runs separate the pieces, a leading (resp. trailing)
  whitespace run contributes one empty leading (resp. trailing) piece, and
  the empty string yields `[""]`.
* `string.length` is modelled as the number of characters
  (`chars` below); this agrees with the JavaScript UTF-16 length for the
  Basic Multilingual Plane texts this code handles.
* The whole-word regular-expression match `\btoken\b` (flags `gi`) used by
  the sparse retriever is modelled as case-insensitive equality with the
  whitespace-delimited words of the text; this is exact for texts made of
  whitespace-separated alphanumeric words and single-word tokens.
* External collaborators (the embedding provider, the LLM oracle, the file
  system) are modelled as explicit inputs.
* Asynchronous functions are pure; exceptions are `Except`.
-/

namespace ForceEqualAI

/-! ### String model -/

/-- Split a character list at every whitespace character (one piece between
any two consecutive whitespace characters). -/
def splitEvery : List Char → List Char → List (List Char)
  | [], acc => [acc.reverse]
  | c :: cs, acc =>
      if c.isWhitespace then acc.reverse :: splitEvery cs []
      else splitEvery cs (c :: acc)

/-- JavaScript `s.split(/\s+/)`: split at maximal whitespace runs.  Interior
empty pieces produced by consecutive whitespace characters are removed; the
leading and trailing pieces are kept even when empty, matching JavaScript. -/
def jsSplitWs (s : String) : List String :=
  match splitEvery s.data [] with
  | [] => []
  | [p] => [String.mk p]
  | p :: rest =>
      (String.mk p :: (rest.dropLast.filter (fun w => w ≠ [])).map String.mk)
        ++ [String.mk (rest.getLastD [])]

/-- ASCII lower-casing of one character (JavaScript `toLowerCase` on the
ASCII range actually exercised by this code). -/
def lowerChar (c : Char) : Char :=
  if 65 ≤ c.toNat ∧ c.toNat ≤ 90 then Char.ofNat (c.toNat + 32) else c

/-- JavaScript `s.toLowerCase()`. -/
def lowerStr (s : String) : String := String.mk (s.data.map lowerChar)

/-- JavaScript `s.length` (number of characters). -/
def chars (s : String) : ℕ := s.data.length

/-- The set of lower-cased whitespace-separated words of a text, as used by
`textSimilarity` in `src/src/lib/enhancedSearch.ts` and by
`AdaptiveRetrievalEngine.calculateSimilarity` in `src/src/lib/adaptiveRAG.ts`
(the two functions have identical bodies). -/
def wordSet (s : String) : Finset String := (jsSplitWs (lowerStr s)).toFinset

/-- Word-level Jaccard similarity: `textSimilarity` of
`src/src/lib/enhancedSearch.ts` (lines 294-302) and `calculateSimilarity` of
`src/src/lib/adaptiveRAG.ts` (lines 420-429).  The denominator is never zero:
`jsSplitWs` always returns a non-empty list, so the union of the word sets is
non-empty. -/
def textSimilarity (text1 text2 : String) : ℚ :=
  ((wordSet text1 ∩ wordSet text2).card : ℚ) / ((wordSet text1 ∪ wordSet text2).card : ℚ)

/-! ### Data model (`src/src/types/index.ts`, `src/unnamed/part_018`,
`src/src/lib/adaptiveRAG.ts`) -/

/-- `QueryAnalysis.intent` (`src/unnamed/part_018` lines 70-77). -/
inductive Intent where
  | question | summary | comparison | definition | instruction | complex
deriving DecidableEq

/-- `QueryAnalysis` (`src/unnamed/part_018` lines 70-77). -/
structure QueryAnalysis where
  originalQuery : String
  expandedQuery : String
  intent : Intent
  entities : List String
  keywords : List String
  confidence : ℚ
deriving DecidableEq

/-- `ContextChunk` (`src/unnamed/part_018` lines 79-85).  The untyped
`metadata` bag is omitted: no claim reads it. -/
structure ContextChunk where
  text : String
  score : ℚ
  documentId : String
  chunkIndex : ℕ
deriving DecidableEq

/-- The metadata attached by `enrichContextsWithMetadata`
(`src/src/lib/adaptiveRAG.ts` lines 30-47).  Only the fields read by the
claims and by `rankContextsByRelevance` are carried (`documentType`,
`complexity`, `relationships`, `semanticTags` and `extractedEntities` are
written by the same code but read by no claim). -/
structure ECMetadata where
  trustworthiness : ℚ
  recency : ℚ
  authority : ℚ
deriving DecidableEq

/-- `EnhancedContext` (`src/src/lib/adaptiveRAG.ts` lines 31-47). -/
structure EnhancedContext where
  text : String
  score : ℚ
  documentId : String
  chunkIndex : ℕ
  metadata : ECMetadata
deriving DecidableEq

/-- The projection used at `src/src/app/api/upload/route.ts` lines 370-377
(an `EnhancedContext` viewed as a `ContextChunk`). -/
def EnhancedContext.toContextChunk (c : EnhancedContext) : ContextChunk :=
  { text := c.text, score := c.score, documentId := c.documentId, chunkIndex := c.chunkIndex }

/-- `DocumentChunk` (`src/src/types/index.ts` lines 9-18); the metadata bag
is omitted (no claim reads it). -/
structure DocumentChunk where
  id : String
  content : String
  embedding : List ℚ
deriving DecidableEq

/-- A chunk as produced by `loadVectorStore` in
`src/src/lib/enhancedSearch.ts` (lines 244-274): `content` renamed to
`text`. -/
structure StoreChunk where
  text : String
  embedding : List ℚ
deriving DecidableEq

/-! ### Association lists modelling JavaScript `Map` -/

/-- `Map.get`. -/
def alGet [DecidableEq K] (m : List (K × V)) (k : K) : Option V :=
  match m.find? (fun kv => kv.1 = k) with
  | some kv => some kv.2
  | none => none

/-- `Map.set`: overwrite in place when the key is present (keeping its
insertion position), append otherwise. -/
def alSet [DecidableEq K] (m : List (K × V)) (k : K) (v : V) : List (K × V) :=
  if m.any (fun kv => kv.1 = k) then
    m.map (fun kv => if kv.1 = k then (k, v) else kv)
  else m ++ [(k, v)]

/-! ### The stable descending sort used to model `Array.prototype.sort`
with comparator `(a, b) => keyOf b - keyOf a`.  For a consistent comparator
JavaScript `sort` is stable (ECMAScript 2019), so its result is the unique
stable descending reordering, which `List.insertionSort` with the relation
below computes. -/

/-- `a` may precede `b` in a descending sort keyed by `f`. -/
def keyGe (f : α → ℚ) (a b : α) : Prop := f b ≤ f a

instance keyGe.decRel (f : α → ℚ) : DecidableRel (keyGe f) :=
  fun a b => inferInstanceAs (Decidable (f b ≤ f a))

instance keyGe.total (f : α → ℚ) : IsTotal α (keyGe f) :=
  ⟨fun a b => le_total (f b) (f a)⟩

instance keyGe.trans (f : α → ℚ) : IsTrans α (keyGe f) :=
  ⟨fun _ _ _ h1 h2 => le_trans h2 h1⟩

/-- Stable sort, descending in `f`. -/
def sortByDesc (f : α → ℚ) (l : List α) : List α :=
  List.insertionSort (keyGe f) l

/-! ### Cosine similarity building blocks.  Both implementations accumulate
`dotProduct`, `normA` and `normB` in one loop over the indices; the three
sums are written separately here. -/

/-- `Σ aᵢ·bᵢ`. -/
def dotProduct (a b : List ℚ) : ℚ := ((a.zip b).map (fun p => p.1 * p.2)).sum

/-- `Σ aᵢ²`. -/
def normSq (a : List ℚ) : ℚ := (a.map (fun x => x * x)).sum

/-! ### Hybrid search (`src/src/lib/enhancedSearch.ts`) -/

/-- The token list of the sparse retriever
(`performSparseRetrieval`, lines 110-114): keywords, then entities, then the
whitespace-split lower-cased original query, concatenated (duplicates are
kept: it is a JavaScript array, not a set). -/
def allKeywords (qa : QueryAnalysis) : List String :=
  qa.keywords ++ qa.entities ++ jsSplitWs (lowerStr qa.originalQuery)

/-- Number of whole-word matches of `keyword` in the lower-cased text
(the source counts matches of the regex-escaped token with flags `gi`
against the lower-cased text; whole-word matching is modelled as equality
with the whitespace-delimited words). -/
def wordMatches (textLower : String) (keyword : String) : ℕ :=
  (jsSplitWs textLower).count (lowerStr keyword)

/-- The `matchScore` and `matchCount` accumulation of `performSparseRetrieval`
(lines 124-139): tokens shorter than 3 characters are skipped; a token
present in `qa.keywords` weighs 2, otherwise 1. -/
def sparseStats (qa : QueryAnalysis) (textLower : String) : ℚ × ℕ :=
  (allKeywords qa).foldl
    (fun acc keyword =>
      if chars keyword < 3 then acc
      else
        let nMatches := wordMatches textLower keyword
        if nMatches > 0 then
          let importance : ℚ := if qa.keywords.contains keyword then 2 else 1
          (acc.1 + (nMatches : ℚ) * importance, acc.2 + 1)
        else acc)
    (0, 0)

/-- `performSparseRetrieval` (lines 100-161).  The vector store (an external
collaborator loaded by `loadVectorStore`) is passed as the `store` input. -/
def performSparseRetrieval (qa : QueryAnalysis) (documentIds : Option (List String))
    (store : List (String × List StoreChunk)) : List ContextChunk :=
  let results := store.foldl
    (fun rs entry =>
      let skip : Bool := match documentIds with
        | some ids => ! ids.contains entry.1
        | none => false
      if skip then rs
      else
        rs ++ entry.2.enum.filterMap (fun ic =>
          let text := lowerStr ic.2.text
          let stats := sparseStats qa text
          if stats.2 > 0 then
            some { text := ic.2.text,
                   score := stats.1 * (stats.2 : ℚ)
                     / ((chars text : ℚ) / 100 + ((allKeywords qa).length : ℚ)),
                   documentId := entry.1,
                   chunkIndex := ic.1 }
          else none))
    []
  sortByDesc (fun c => c.score) results

/-- The key under which `fuseSearchResults` stores a chunk
(the source uses the string `documentId ++ "_" ++ toString chunkIndex`; that
encoding is injective on pairs, so the pair itself is used here). -/
def chunkKey (c : ContextChunk) : String × ℕ := (c.documentId, c.chunkIndex)

/-- The predicate of the `findIndex` calls in `fuseSearchResults`
(lines 191-196). -/
def keyMatch (k : String × ℕ) (x : ContextChunk) : Bool :=
  x.documentId == k.1 && x.chunkIndex == k.2

/-- The dense weight of `fuseSearchResults` (line 172). -/
def denseWeight (qa : QueryAnalysis) : ℚ :=
  if qa.intent = Intent.definition then 0.7 else 0.6

/-- The sparse weight of `fuseSearchResults` (line 173). -/
def sparseWeight (qa : QueryAnalysis) : ℚ := 1 - denseWeight qa

/-- `fuseSearchResults` (lines 164-215).  The `fusionType` metadata tag is
not modelled (no claim reads it). -/
def fuseSearchResults (denseResults sparseResults : List ContextChunk)
    (qa : QueryAnalysis) : List ContextChunk :=
  let m1 := denseResults.foldl
    (fun m c => alSet m (chunkKey c) { c with score := c.score * denseWeight qa }) []
  let m2 := sparseResults.foldl
    (fun m c =>
      match alGet m (chunkKey c) with
      | some existing =>
          let denseRank := denseResults.findIdx (keyMatch (chunkKey c)) + 1
          let sparseRank := sparseResults.findIdx (keyMatch (chunkKey c)) + 1
          let rrfScore : ℚ := 1 / (60 + (denseRank : ℚ)) + 1 / (60 + (sparseRank : ℚ))
          alSet m (chunkKey c) { existing with score := rrfScore }
      | none => alSet m (chunkKey c) { c with score := c.score * sparseWeight qa })
    m1
  sortByDesc (fun c => c.score) (m2.map Prod.snd)

/-- `applyDiversityFilter` (lines 218-242): keep the top result, then keep
each candidate only when its Jaccard similarity to every already selected
result is at most the threshold.  (The source's early return for inputs of
length at most 1 agrees with this recursion.) -/
def applyDiversityFilter (results : List ContextChunk) (threshold : ℚ) : List ContextChunk :=
  match results with
  | [] => []
  | top :: rest =>
      rest.foldl
        (fun diverse candidate =>
          if diverse.all (fun selected =>
              decide (textSimilarity candidate.text selected.text ≤ threshold)) then
            diverse ++ [candidate]
          else diverse)
        [top]

/-- `SearchResult` (lines 4-8). -/
structure SearchResult where
  chunks : List ContextChunk
  totalFound : ℕ
  searchStrategy : String
deriving DecidableEq

/-- `performHybridSearch` (lines 21-55).  The dense pass embeds the query
through the external embedding provider, so its result list `dense` is an
input, as is the fallback dense result used by the `catch` branch; `failed`
says whether one of the awaited steps threw. -/
def performHybridSearch (dense : List ContextChunk) (qa : QueryAnalysis)
    (documentIds : Option (List String)) (store : List (String × List StoreChunk))
    (topK? : Option ℕ) (diversityThreshold? : Option ℚ)
    (failed : Bool) (fallbackDense : List ContextChunk) : SearchResult :=
  let topK := topK?.getD 10
  if failed then
    { chunks := fallbackDense.take topK,
      totalFound := fallbackDense.length,
      searchStrategy := "fallback_dense" }
  else
    let sparse := performSparseRetrieval qa documentIds store
    let fused := fuseSearchResults dense sparse qa
    -- `params.diversityThreshold || 0.7`: in JavaScript 0 is falsy
    let thr : ℚ := match diversityThreshold? with
      | some t => if t = 0 then 0.7 else t
      | none => 0.7
    let diverse := applyDiversityFilter fused thr
    { chunks := diverse.take topK,
      totalFound := fused.length,
      searchStrategy := "hybrid_dense_sparse" }

/-- `cosineSimilarity` of `src/src/lib/enhancedSearch.ts` (lines 277-291):
returns the number 0 on a length mismatch (no error). -/
def cosineSimilarityES (sqrt : ℚ → ℚ) (a b : List ℚ) : ℚ :=
  if a.length ≠ b.length then 0
  else dotProduct a b / (sqrt (normSq a) * sqrt (normSq b))

namespace PersistentVectorStore

/-! ### `PersistentVectorStore` (`src/unnamed/part_013`) -/

/-- The value computed by `cosineSimilarity` (lines 158-175) past the length
check: 0 when the magnitude is 0, the quotient otherwise. -/
def cosineVal (sqrt : ℚ → ℚ) (a b : List ℚ) : ℚ :=
  let magnitude := sqrt (normSq a) * sqrt (normSq b)
  if magnitude = 0 then 0 else dotProduct a b / magnitude

/-- `PersistentVectorStore.cosineSimilarity` (lines 158-175): throws
`Error("Vector dimensions must match")` when the lengths differ. -/
def cosineSimilarity (sqrt : ℚ → ℚ) (a b : List ℚ) : Except String ℚ :=
  if a.length ≠ b.length then Except.error "Vector dimensions must match"
  else Except.ok (cosineVal sqrt a b)

/-- `searchSimilar` (lines 79-100): empty list for an unknown id; otherwise
map every chunk of the document to its similarity (a throw inside the map
aborts the call), sort descending by similarity, take `topK`, drop the
similarity. -/
def searchSimilar (sqrt : ℚ → ℚ) (documents : List (String × List DocumentChunk))
    (queryEmbedding : List ℚ) (documentId : String) (topK : ℕ) :
    Except String (List DocumentChunk) :=
  match alGet documents documentId with
  | none => Except.ok []
  | some chunks => do
      let similarities ← chunks.mapM (fun chunk => do
        let s ← cosineSimilarity sqrt queryEmbedding chunk.embedding
        pure (chunk, s))
      pure (((sortByDesc (fun p => p.2) similarities).take topK).map Prod.fst)

/-- The mutable state of the store: the in-memory `documents` map and the
chunk files on disk (one file per document; the per-document metadata
sidecar files are not modelled, no claim reads them). -/
structure State where
  documents : List (String × List DocumentChunk)
  disk : List (String × List DocumentChunk)
deriving DecidableEq

/-- `saveToDisk` (lines 49-56): `writeFileSync` inside `try`; on failure the
`catch` block logs the error and the method returns normally, so the disk is
left unchanged and no error escapes.  `writeFails` says whether this disk
write fails. -/
def saveToDisk (writeFails : Bool) (st : State) (documentId : String)
    (chunks : List DocumentChunk) : State :=
  if writeFails then st
  else { st with disk := alSet st.disk documentId chunks }

/-- `storeDocument` (lines 58-68): set the in-memory entry, then
`saveToDisk`.  The returned promise never rejects, hence the `Except.ok`. -/
def storeDocument (writeFails : Bool) (st : State) (documentId : String)
    (chunks : List DocumentChunk) : Except String State :=
  let st1 := { st with documents := alSet st.documents documentId chunks }
  Except.ok (saveToDisk writeFails st1 documentId chunks)

end PersistentVectorStore

namespace AdaptiveRetrievalEngine

/-! ### `AdaptiveRetrievalEngine` (`src/src/lib/adaptiveRAG.ts`) -/

/-- `calculateTrustworthiness` (lines 438-441): constant 0.8. -/
def calculateTrustworthiness (_ctx : ContextChunk) : ℚ := 0.8

/-- `calculateRecency` (lines 443-446): constant 30 (days). -/
def calculateRecency (_ctx : ContextChunk) : ℚ := 30

/-- `calculateAuthority` (lines 448-451): constant 0.7. -/
def calculateAuthority (_ctx : ContextChunk) : ℚ := 0.7

/-- `enrichContextsWithMetadata` (lines 236-250), restricted to the metadata
fields any claim reads. -/
def enrichContextsWithMetadata (contexts : List ContextChunk) : List EnhancedContext :=
  contexts.map (fun ctx =>
    { text := ctx.text, score := ctx.score, documentId := ctx.documentId,
      chunkIndex := ctx.chunkIndex,
      metadata := { trustworthiness := calculateTrustworthiness ctx,
                    recency := calculateRecency ctx,
                    authority := calculateAuthority ctx } })

/-- `calculateSimilarity` (lines 420-429); its body is identical to
`textSimilarity` of `enhancedSearch.ts`. -/
def calculateSimilarity (text1 text2 : String) : ℚ := textSimilarity text1 text2

/-- `filterAndDeduplicate` (lines 285-291): drop every new context whose
similarity to some already accumulated context is strictly greater
than 0.8. -/
def filterAndDeduplicate (newContexts existingContexts : List EnhancedContext) :
    List EnhancedContext :=
  newContexts.filter (fun newCtx =>
    ! existingContexts.any (fun existing =>
      decide (calculateSimilarity newCtx.text existing.text > 0.8)))

/-- `calculateAvgConfidence` (lines 318-320): mean of the scores. -/
def calculateAvgConfidence (contexts : List EnhancedContext) : ℚ :=
  (contexts.map (fun c => c.score)).sum / (contexts.length : ℚ)

/-- The multi-factor relevance of `rankContextsByRelevance`
(lines 475-484). -/
def relevance (c : EnhancedContext) : ℚ :=
  c.score * 0.4 + c.metadata.trustworthiness * 0.3 + c.metadata.authority * 0.2
    + max 0 (1 - c.metadata.recency / 365) * 0.1

/-- `rankContextsByRelevance` (lines 475-484): stable descending sort by the
multi-factor relevance (the comparator returns `scoreB - scoreA`; the unused
`query` parameter of the source is omitted). -/
def rankContextsByRelevance (contexts : List EnhancedContext) : List EnhancedContext :=
  sortByDesc relevance contexts

/-- The external collaborators of `performMultiStageRetrieval`: the
per-stage retrieval (`retrieveForStage`, lines 270-283, which runs
`performSemanticSearch` against the shared vector store through the
embedding provider — the source also passes the accumulated contexts but
reads neither) and the LLM query refinement (`generateRefinedQuery`,
lines 293-316; on oracle failure it returns the original query, which is one
possible behaviour of this input). -/
structure MultiStageOracle where
  retrieveForStage : ℕ → String → List ContextChunk
  generateRefinedQuery : String → List EnhancedContext → String

/-- One pass of the stage loop of `performMultiStageRetrieval`
(lines 126-146), also recording for each executed stage the pair
(enriched stage results, contexts accumulated before the stage).
`remaining` is the number of stages still to run, `stage` the 0-based stage
number. -/
def multiStageGo (o : MultiStageOracle) (originalQuery : String) :
    ℕ → ℕ → String → List EnhancedContext →
    List (List EnhancedContext × List EnhancedContext) × List EnhancedContext
  | 0, _, _, contexts => ([], contexts)
  | remaining + 1, stage, currentQuery, contexts =>
      let stageResults := enrichContextsWithMetadata (o.retrieveForStage stage currentQuery)
      let newContexts := filterAndDeduplicate stageResults contexts
      let contexts1 := contexts ++ newContexts
      let nextQuery :=
        if remaining > 0 then o.generateRefinedQuery originalQuery contexts1 else currentQuery
      if contexts1.length ≥ 10 ∧ calculateAvgConfidence contexts1 > 0.8 then
        ([(stageResults, contexts)], contexts1)
      else
        let next := multiStageGo o originalQuery remaining (stage + 1) nextQuery contexts1
        ((stageResults, contexts) :: next.1, next.2)

/-- `performMultiStageRetrieval` (lines 115-149): run the stage loop from
the expanded query with an empty accumulator, then rank.
`strategy.parameters.stages || 3` defaults to 3 (0 is falsy in
JavaScript). -/
def performMultiStageRetrieval (o : MultiStageOracle) (query : QueryAnalysis)
    (stages? : Option ℕ) : List EnhancedContext :=
  let stages := match stages? with
    | some n => if n = 0 then 3 else n
    | none => 3
  rankContextsByRelevance (multiStageGo o query.originalQuery stages 0 query.expandedQuery []).2

/-- The per-stage trace of the same run: for each executed stage, the
enriched stage results and the contexts accumulated before the stage. -/
def multiStageTrace (o : MultiStageOracle) (query : QueryAnalysis)
    (stages? : Option ℕ) : List (List EnhancedContext × List EnhancedContext) :=
  let stages := match stages? with
    | some n => if n = 0 then 3 else n
    | none => 3
  (multiStageGo o query.originalQuery stages 0 query.expandedQuery []).1

end AdaptiveRetrievalEngine

/-! ### Answer confidence (`src/unnamed/part_018` lines 341-364 and
`src/src/app/api/upload/route.ts` lines 386-396) -/

/-- `calculateAnswerConfidence` (`src/unnamed/part_018` lines 341-364). -/
def calculateAnswerConfidence (queryAnalysis : QueryAnalysis)
    (contexts : List ContextChunk) (answerLength : ℕ) : ℚ :=
  let base : ℚ := 0.5
  let avgContextScore := (contexts.map (fun c => c.score)).sum / (contexts.length : ℚ)
  let lengthScore : ℚ := min ((answerLength : ℚ) / 500) 1
  let sourceScore : ℚ := min ((contexts.length : ℚ) / 5) 1
  min (base + queryAnalysis.confidence * 0.3 + avgContextScore * 0.3
        + lengthScore * 0.2 + sourceScore * 0.2) 1

/-- The `metadataConfidence` of the route (lines 386-389): mean over the
enhanced contexts of trustworthiness · authority · score. -/
def metadataConfidence (contexts : List EnhancedContext) : ℚ :=
  (contexts.map (fun ctx =>
    ctx.metadata.trustworthiness * ctx.metadata.authority * ctx.score)).sum
    / (contexts.length : ℚ)

/-- The final answer confidence of the route (lines 391-396):
`Math.min(Math.max(oracle, calculateAnswerConfidence(...), metadataConfidence), 1.0)`,
where `oracle` is the confidence reported by the answer-synthesis
collaborator. -/
def adaptiveFinalConfidence (oracleConfidence : ℚ) (queryAnalysis : QueryAnalysis)
    (contexts : List EnhancedContext) (answerLength : ℕ) : ℚ :=
  let contextChunks := contexts.map EnhancedContext.toContextChunk
  min (max oracleConfidence
        (max (calculateAnswerConfidence queryAnalysis contextChunks answerLength)
          (metadataConfidence contexts))) 1

/-! ### Spec-side definitions.  These are written from the words of the
claims (not from the source) and are compared with the source-side
definitions above. -/

/-- The formulaic confidence exactly as claim C1 words it:
`0.3·qa.confidence + 0.3·meanContextScore + 0.2·min(answerLength/500,1)
+ 0.2·min(contextCount/5,1)` (no additive base). -/
def claimFormulaicConfidence (queryAnalysis : QueryAnalysis)
    (contexts : List ContextChunk) (answerLength : ℕ) : ℚ :=
  0.3 * queryAnalysis.confidence
    + 0.3 * ((contexts.map (fun c => c.score)).sum / (contexts.length : ℚ))
    + 0.2 * min ((answerLength : ℚ) / 500) 1
    + 0.2 * min ((contexts.length : ℚ) / 5) 1

/-- The final answer confidence exactly as claim C1 words it: the maximum of
the oracle confidence, the claim's formulaic confidence and the metadata
confidence, capped at 1. -/
def claimFinalConfidence (oracleConfidence : ℚ) (queryAnalysis : QueryAnalysis)
    (contexts : List EnhancedContext) (answerLength : ℕ) : ℚ :=
  min (max oracleConfidence
        (max (claimFormulaicConfidence queryAnalysis
                (contexts.map EnhancedContext.toContextChunk) answerLength)
          (metadataConfidence contexts))) 1

/-- The formulaic confidence as amended for claim C1: the source adds a base
of 0.5 before the four weighted terms.  (The source also caps this sum at 1
on its own; that inner cap is absorbed by the final cap and is proved
immaterial in the amended theorem.) -/
def amendedFormulaicConfidence (queryAnalysis : QueryAnalysis)
    (contexts : List ContextChunk) (answerLength : ℕ) : ℚ :=
  0.5 + 0.3 * queryAnalysis.confidence
    + 0.3 * ((contexts.map (fun c => c.score)).sum / (contexts.length : ℚ))
    + 0.2 * min ((answerLength : ℚ) / 500) 1
    + 0.2 * min ((contexts.length : ℚ) / 5) 1

/-- The token set exactly as claim C7 words it: the set
`keywords ∪ entities ∪ whitespace-split(query)` with tokens shorter than 3
characters discarded. -/
def claimTokenSet (qa : QueryAnalysis) : Finset String :=
  ((allKeywords qa).filter (fun kw => decide (3 ≤ chars kw))).toFinset

/-- The sparse score exactly as claim C7 words it: weighted matches summed
over the token set, times the number of matching tokens of the set, divided
by `len(text)/100 + tokenCount` with `tokenCount` the size of the set. -/
def claimSparseScore (qa : QueryAnalysis) (text : String) : ℚ :=
  let textLower := lowerStr text
  let weighted := (claimTokenSet qa).sum (fun kw =>
    (wordMatches textLower kw : ℚ) * (if qa.keywords.contains kw then 2 else 1))
  let matched := ((claimTokenSet qa).filter (fun kw => 0 < wordMatches textLower kw)).card
  weighted * (matched : ℚ) / ((chars textLower : ℚ) / 100 + ((claimTokenSet qa).card : ℚ))

/-- The weighted match total as amended for claim C7: summed over the token
list (concatenation, duplicates retained), skipping tokens shorter than 3
characters. -/
def sparseWeightedMatches (qa : QueryAnalysis) (textLower : String) : ℚ :=
  ((allKeywords qa).map (fun kw =>
    if chars kw < 3 then 0
    else (wordMatches textLower kw : ℚ) * (if qa.keywords.contains kw then 2 else 1))).sum

/-- The matched token count as amended for claim C7: counted over the token
list with multiplicity, skipping tokens shorter than 3 characters. -/
def sparseMatchedTokenCount (qa : QueryAnalysis) (textLower : String) : ℕ :=
  ((allKeywords qa).filter (fun kw =>
    decide (3 ≤ chars kw) && decide (0 < wordMatches textLower kw))).length

/-- The sparse score as amended for claim C7: the denominator counts the
whole token list (short tokens and duplicates included). -/
def amendedSparseScore (qa : QueryAnalysis) (text : String) : ℚ :=
  let textLower := lowerStr text
  sparseWeightedMatches qa textLower * (sparseMatchedTokenCount qa textLower : ℚ)
    / ((chars textLower : ℚ) / 100 + ((allKeywords qa).length : ℚ))

/-! ## Claim C8 -/

/-- One step of the diversity-filter loop of `applyDiversityFilter`
(named for the proofs; `applyDiversityFilter` folds it). -/
def divStep (threshold : ℚ) (diverse : List ContextChunk)
    (candidate : ContextChunk) : List ContextChunk :=
  if diverse.all (fun selected =>
      decide (textSimilarity candidate.text selected.text ≤ threshold)) then
    diverse ++ [candidate]
  else diverse

/-- The per-entry result list of the sparse-retrieval loop. -/
def sparseDocResults (qa : QueryAnalysis) (entry : String × List StoreChunk) :
    List ContextChunk :=
  entry.2.enum.filterMap (fun ic =>
    let text := lowerStr ic.2.text
    let stats := sparseStats qa text
    if stats.2 > 0 then
      some { text := ic.2.text,
             score := stats.1 * (stats.2 : ℚ)
               / ((chars text : ℚ) / 100 + ((allKeywords qa).length : ℚ)),
             documentId := entry.1,
             chunkIndex := ic.1 }
    else none)

/-- The skip test of the sparse-retrieval loop. -/
def sparseSkip (documentIds : Option (List String)) (docId : String) : Bool :=
  match documentIds with
  | some ids => ! ids.contains docId
  | none => false

/-- The oracle of the concrete two-stage run used for claim C6: stage 0
returns one chunk of text "a b c d e", stage 1 one chunk of text "a b c d"
(Jaccard similarity between the two texts: exactly 4/5); query refinement
returns the original query. -/
def msOracleEx : AdaptiveRetrievalEngine.MultiStageOracle :=
  ⟨fun stage _ => if stage = 0 then [⟨"a b c d e", 1, "d", 0⟩] else [⟨"a b c d", 1, "d", 1⟩],
   fun originalQuery _ => originalQuery⟩

/-- The query analysis of the concrete run used for claim C6. -/
def msQueryEx : QueryAnalysis := ⟨"q", "q", Intent.question, [], [], 1⟩

/-- The stage-0 chunk of the concrete run, enriched. -/
def ecEx1 : EnhancedContext := ⟨"a b c d e", 1, "d", 0, ⟨0.8, 30, 0.7⟩⟩

/-- The stage-1 chunk of the concrete run, enriched. -/
def ecEx2 : EnhancedContext := ⟨"a b c d", 1, "d", 1, ⟨0.8, 30, 0.7⟩⟩

/-! ## Claim C4 -/

/-- The Reciprocal Rank Fusion score assigned by `fuseSearchResults` to the
key `k` present in both lists: the ranks are the 1-based positions found by
`findIndex` over each full result list. -/
def rrfScoreFor (denseResults sparseResults : List ContextChunk) (k : String × ℕ) : ℚ :=
  1 / (60 + ((denseResults.findIdx (keyMatch k) + 1 : ℕ) : ℚ))
    + 1 / (60 + ((sparseResults.findIdx (keyMatch k) + 1 : ℕ) : ℚ))

/-- The fused map of `fuseSearchResults` after the dense pass and the sparse
pass over the prefix `p` of the sparse results (a proof device; the
invariant `sparseFold_eq` shows the sparse fold computes it). -/
def fusedPhase2 (qa : QueryAnalysis) (denseResults sparseResults p : List ContextChunk) :
    List ((String × ℕ) × ContextChunk) :=
  denseResults.map (fun d => (chunkKey d,
    if p.any (fun s => decide (chunkKey s = chunkKey d)) then
      { d with score := rrfScoreFor denseResults sparseResults (chunkKey d) }
    else { d with score := d.score * denseWeight qa }))
  ++ (p.filter (fun s => ! denseResults.any (fun d => decide (chunkKey d = chunkKey s)))).map
      (fun s => (chunkKey s, { s with score := s.score * sparseWeight qa }))

/-- The fold function of the sparse pass of `fuseSearchResults` (a proof
device; `fuseSearchResults` folds exactly this function, see
`fuseSearchResults_def`). -/
def fuseStep (denseResults sparseResults : List ContextChunk) (qa : QueryAnalysis)
    (m : List ((String × ℕ) × ContextChunk)) (c : ContextChunk) :
    List ((String × ℕ) × ContextChunk) :=
  match alGet m (chunkKey c) with
  | some existing =>
      let denseRank := denseResults.findIdx (keyMatch (chunkKey c)) + 1
      let sparseRank := sparseResults.findIdx (keyMatch (chunkKey c)) + 1
      let rrfScore : ℚ := 1 / (60 + (denseRank : ℚ)) + 1 / (60 + (sparseRank : ℚ))
      alSet m (chunkKey c) { existing with score := rrfScore }
  | none => alSet m (chunkKey c) { c with score := c.score * sparseWeight qa }

/-! ## Theorems -/

theorem jsSplitWs_ne_nil (s : String) : jsSplitWs s ≠ [] := by
  unfold jsSplitWs
  rcases h : splitEvery s.data [] with _ | ⟨p, rest⟩
  · exfalso
    have : ∀ (l : List Char) (acc : List Char), splitEvery l acc ≠ [] := by
      intro l
      induction l with
      | nil => intro acc; simp [splitEvery]
      | cons c cs ih =>
          intro acc
          by_cases hw : c.isWhitespace <;> simp [splitEvery, hw, ih]
    exact this s.data [] h
  · cases rest <;> simp

theorem wordSet_nonempty (s : String) : (wordSet s).Nonempty := by
  have h := jsSplitWs_ne_nil (lowerStr s)
  rcases hl : jsSplitWs (lowerStr s) with _ | ⟨w, ws⟩
  · exact absurd hl h
  · exact ⟨w, by simp [wordSet, hl]⟩

theorem textSimilarity_comm (a b : String) :
    textSimilarity a b = textSimilarity b a := by
  unfold textSimilarity
  rw [Finset.inter_comm, Finset.union_comm]

theorem sortByDesc_sorted (f : α → ℚ) (l : List α) :
    (sortByDesc f l).Pairwise (fun a b => f b ≤ f a) :=
  List.sorted_insertionSort (keyGe f) l

theorem sortByDesc_perm (f : α → ℚ) (l : List α) : List.Perm (sortByDesc f l) l :=
  List.perm_insertionSort (keyGe f) l

theorem orderedInsert_congr {r r' : α → α → Prop} [DecidableRel r] [DecidableRel r']
    (a : α) (l : List α) (h : ∀ b ∈ l, (r a b ↔ r' a b)) :
    l.orderedInsert r a = l.orderedInsert r' a := by
  induction l with
  | nil => rfl
  | cons b l ih =>
      by_cases hr : r a b
      · have hr' : r' a b := (h b (by simp)).mp hr
        simp [List.orderedInsert, hr, hr']
      · have hr' : ¬ r' a b := fun hc => hr ((h b (by simp)).mpr hc)
        simp only [List.orderedInsert, if_neg hr, if_neg hr']
        rw [ih (fun c hc => h c (by simp [hc]))]

theorem insertionSort_congr {r r' : α → α → Prop} [DecidableRel r] [DecidableRel r']
    (l : List α) (h : ∀ a ∈ l, ∀ b ∈ l, (r a b ↔ r' a b)) :
    List.insertionSort r l = List.insertionSort r' l := by
  induction l with
  | nil => rfl
  | cons a l ih =>
      have hl : List.insertionSort r l = List.insertionSort r' l :=
        ih (fun x hx y hy => h x (by simp [hx]) y (by simp [hy]))
      simp only [List.insertionSort, hl]
      refine orderedInsert_congr a (List.insertionSort r' l) (fun b hb => ?_)
      have hb' : b ∈ l := (List.perm_insertionSort r' l).mem_iff.mp hb
      exact h a (by simp) b (by simp [hb'])

/-! ### Association-list lemmas -/

theorem find_alSet [DecidableEq K] (m : List (K × V)) (k : K) (v : V) :
    (alSet m k v).find? (fun kv => kv.1 = k) = some (k, v) := by
  induction m with
  | nil => simp [alSet]
  | cons kv m ih =>
      by_cases hk : kv.1 = k
      · have hany : ((kv :: m).any fun kv => decide (kv.1 = k)) = true := by
          simp [List.any_cons, hk]
        simp only [alSet, hany, if_true, List.map_cons, if_pos hk]
        exact List.find?_cons_of_pos _ (by simp)
      · by_cases hm : (m.any fun kv => decide (kv.1 = k)) = true
        · have hany : ((kv :: m).any fun kv => decide (kv.1 = k)) = true := by
            simp only [List.any_cons, hm, Bool.or_true]
          simp only [alSet, hany, if_true, List.map_cons, if_neg hk]
          rw [List.find?_cons_of_neg _ (by simpa using hk)]
          have h := ih
          simp only [alSet, hm, if_true] at h
          exact h
        · have hany : ((kv :: m).any fun kv => decide (kv.1 = k)) = false := by
            rw [List.any_cons, Bool.or_eq_false_iff]
            exact ⟨by simpa using hk, Bool.eq_false_iff.mpr hm⟩
          simp only [alSet, hany, Bool.false_eq_true, if_false, List.cons_append]
          rw [List.find?_cons_of_neg _ (by simpa using hk)]
          have h := ih
          simp only [alSet, hm, Bool.false_eq_true, if_false] at h
          exact h

theorem alGet_alSet_self [DecidableEq K] (m : List (K × V)) (k : K) (v : V) :
    alGet (alSet m k v) k = some v := by
  simp [alGet, find_alSet]

theorem normSq_eq_zero_of_zero {a : List ℚ} (h : ∀ x ∈ a, x = 0) : normSq a = 0 := by
  unfold normSq
  apply List.sum_eq_zero
  intro x hx
  rcases List.mem_map.mp hx with ⟨y, hy, rfl⟩
  rw [h y hy, mul_zero]

/-! ## Claim C2 -/

/-- Claim C2 as frozen is refuted: `cosineSimilarity` of
`src/src/lib/enhancedSearch.ts` is a similarity computation over a pair of
embedding vectors of different lengths (1 and 2) that does not fail — it
silently returns the numeric result 0.  (The `PersistentVectorStore`
implementation of `src/unnamed/part_013` does fail on the same input, shown
alongside for contrast.) -/
theorem C2_counterexample :
    cosineSimilarityES (fun _ => 0) [1] [1, 0] = 0 ∧
    PersistentVectorStore.cosineSimilarity (fun _ => 0) [1] [1, 0]
      = Except.error "Vector dimensions must match" := by
  constructor
  · simp [cosineSimilarityES]
  · simp [PersistentVectorStore.cosineSimilarity]

/-- Claim C2 amended: the `PersistentVectorStore` similarity fails with the
dimension-mismatch error when the lengths differ and returns 0 when either
vector is the zero vector (zero magnitude); the `enhancedSearch`
`cosineSimilarity`, however, returns the number 0 on a length mismatch
instead of failing. -/
theorem C2_similarity (sqrt : ℚ → ℚ) (hsqrt : sqrt 0 = 0) (a b : List ℚ) :
    (a.length ≠ b.length →
      PersistentVectorStore.cosineSimilarity sqrt a b
          = Except.error "Vector dimensions must match" ∧
      cosineSimilarityES sqrt a b = 0) ∧
    (a.length = b.length → ((∀ x ∈ a, x = 0) ∨ (∀ x ∈ b, x = 0)) →
      PersistentVectorStore.cosineSimilarity sqrt a b = Except.ok 0) := by
  constructor
  · intro hne
    exact ⟨by simp [PersistentVectorStore.cosineSimilarity, hne],
           by simp [cosineSimilarityES, hne]⟩
  · intro heq hzero
    have hmag : sqrt (normSq a) * sqrt (normSq b) = 0 := by
      rcases hzero with hz | hz
      · rw [normSq_eq_zero_of_zero hz, hsqrt, zero_mul]
      · rw [normSq_eq_zero_of_zero hz, hsqrt, mul_zero]
    simp [PersistentVectorStore.cosineSimilarity, heq, PersistentVectorStore.cosineVal, hmag]

/-- Witness for C2: the theorem applied at concrete inputs. -/
theorem C2_similarity_witness :
    PersistentVectorStore.cosineSimilarity (fun _ => 0) [0] [5] = Except.ok 0 ∧
    cosineSimilarityES (fun _ => 0) [2] [2, 3] = 0 :=
  ⟨(C2_similarity (fun _ => 0) rfl [0] [5]).2 rfl (Or.inl (by simp)),
   ((C2_similarity (fun _ => 0) rfl [2] [2, 3]).1 (by simp)).2⟩

/-! ## Claim C3 -/

/-- Claim C3 as frozen is refuted: a `storeDocument` call during which the
disk write fails still resolves successfully (the `catch` block inside
`saveToDisk` swallows the error), so no storage error reaches the ingestion
caller; the disk is left unchanged while the in-memory index holds the
chunks. -/
theorem C3_counterexample :
    PersistentVectorStore.storeDocument true ⟨[], []⟩ "doc1" [⟨"c1", "hello", [1]⟩]
      = Except.ok ⟨[("doc1", [⟨"c1", "hello", [1]⟩])], []⟩ := by
  rfl

/-- Claim C3 amended: a disk-write failure during `storeDocument` is caught
and logged inside `saveToDisk` and is not propagated — the call resolves
successfully in every case; the chunks are never dropped from the in-memory
index (they are indexed before the write), but on failure the disk is left
unchanged; on success the chunks are also persisted. -/
theorem C3_storeDocument (writeFails : Bool) (st : PersistentVectorStore.State)
    (documentId : String) (chunks : List DocumentChunk) :
    ∃ st', PersistentVectorStore.storeDocument writeFails st documentId chunks
        = Except.ok st' ∧
      alGet st'.documents documentId = some chunks ∧
      (writeFails = true → st'.disk = st.disk) ∧
      (writeFails = false → alGet st'.disk documentId = some chunks) := by
  cases writeFails with
  | false =>
      refine ⟨_, rfl, alGet_alSet_self _ _ _, ?_, ?_⟩
      · intro h; exact absurd h (by simp)
      · intro _; exact alGet_alSet_self _ _ _
  | true =>
      refine ⟨_, rfl, alGet_alSet_self _ _ _, ?_, ?_⟩
      · intro _; rfl
      · intro h; exact absurd h (by simp)

/-- Witness for C3: the theorem applied at a concrete input. -/
theorem C3_storeDocument_witness :
    ∃ st', PersistentVectorStore.storeDocument true ⟨[], []⟩ "doc1" [⟨"c1", "hello", [1]⟩]
        = Except.ok st' ∧
      alGet st'.documents "doc1" = some [⟨"c1", "hello", [1]⟩] ∧
      (true = true → st'.disk = PersistentVectorStore.State.disk ⟨[], []⟩) ∧
      (true = false → alGet st'.disk "doc1" = some [⟨"c1", "hello", [1]⟩]) :=
  C3_storeDocument true ⟨[], []⟩ "doc1" [⟨"c1", "hello", [1]⟩]

/-! ## Claim C5 -/

/-- Claim C5 as frozen is refuted on its default: a hybrid-search invocation
that does not supply `topK` can return 10 chunks, so the default is not 8
(the destructuring at line 22 of `src/src/lib/enhancedSearch.ts` reads
`topK = 10`).  The invocation below runs the fallback dense path with ten
retrieved chunks and no caller-supplied `topK`. -/
theorem C5_counterexample :
    (performHybridSearch [] ⟨"q", "q", Intent.question, [], [], 1⟩ none [] none none true
      [⟨"t0", 10, "d", 0⟩, ⟨"t1", 9, "d", 1⟩, ⟨"t2", 8, "d", 2⟩, ⟨"t3", 7, "d", 3⟩,
       ⟨"t4", 6, "d", 4⟩, ⟨"t5", 5, "d", 5⟩, ⟨"t6", 4, "d", 6⟩, ⟨"t7", 3, "d", 7⟩,
       ⟨"t8", 2, "d", 8⟩, ⟨"t9", 1, "d", 9⟩]).chunks.length = 10 := by
  rfl

/-- Claim C5 amended: every hybrid-search invocation returns at most `topK`
chunks, and `topK` defaults to 10 (not 8) when the caller does not supply
it. -/
theorem C5_hybrid_topK (dense : List ContextChunk) (qa : QueryAnalysis)
    (documentIds : Option (List String)) (store : List (String × List StoreChunk))
    (topK? : Option ℕ) (diversityThreshold? : Option ℚ)
    (failed : Bool) (fallbackDense : List ContextChunk) :
    (performHybridSearch dense qa documentIds store topK? diversityThreshold?
        failed fallbackDense).chunks.length ≤ topK?.getD 10 ∧
    performHybridSearch dense qa documentIds store none diversityThreshold?
        failed fallbackDense
      = performHybridSearch dense qa documentIds store (some 10) diversityThreshold?
        failed fallbackDense := by
  constructor
  · cases failed
    · simp only [performHybridSearch, Bool.false_eq_true, if_false]
      exact List.length_take_le _ _
    · simp only [performHybridSearch, if_true]
      exact List.length_take_le _ _
  · rfl

/-! ## Claim C10 -/

/-- Claim C10: every context produced by `enrichContextsWithMetadata`
carries the constants trustworthiness 0.8, authority 0.7 and recency 30, and
consequently the multi-factor ranking of `rankContextsByRelevance` orders an
enriched list exactly as the stable descending sort by score alone. -/
theorem C10_metadata_ranking (contexts : List ContextChunk) :
    (∀ c ∈ AdaptiveRetrievalEngine.enrichContextsWithMetadata contexts,
       c.metadata.trustworthiness = 0.8 ∧ c.metadata.authority = 0.7 ∧
       c.metadata.recency = 30) ∧
    AdaptiveRetrievalEngine.rankContextsByRelevance
        (AdaptiveRetrievalEngine.enrichContextsWithMetadata contexts)
      = sortByDesc (fun c => c.score)
        (AdaptiveRetrievalEngine.enrichContextsWithMetadata contexts) := by
  constructor
  · intro c hc
    rcases List.mem_map.mp hc with ⟨x, _, rfl⟩
    exact ⟨rfl, rfl, rfl⟩
  · unfold AdaptiveRetrievalEngine.rankContextsByRelevance sortByDesc
    apply insertionSort_congr
    intro a ha b hb
    have hma : a.metadata = ⟨0.8, 30, 0.7⟩ := by
      rcases List.mem_map.mp ha with ⟨x, _, rfl⟩; rfl
    have hmb : b.metadata = ⟨0.8, 30, 0.7⟩ := by
      rcases List.mem_map.mp hb with ⟨x, _, rfl⟩; rfl
    unfold keyGe AdaptiveRetrievalEngine.relevance
    rw [hma, hmb]
    constructor <;> intro h <;> simp only at h ⊢ <;> linarith

/-- Witness for C10: the theorem applied at a concrete input. -/
theorem C10_metadata_ranking_witness :
    AdaptiveRetrievalEngine.rankContextsByRelevance
        (AdaptiveRetrievalEngine.enrichContextsWithMetadata [⟨"t", 1, "d", 0⟩])
      = sortByDesc (fun c => c.score)
        (AdaptiveRetrievalEngine.enrichContextsWithMetadata [⟨"t", 1, "d", 0⟩]) :=
  (C10_metadata_ranking [⟨"t", 1, "d", 0⟩]).2

theorem applyDiversityFilter_eq_fold (top : ContextChunk) (rest : List ContextChunk)
    (threshold : ℚ) :
    applyDiversityFilter (top :: rest) threshold = rest.foldl (divStep threshold) [top] :=
  rfl

theorem divFold_append (threshold : ℚ) :
    ∀ (rest acc : List ContextChunk),
      ∃ t, rest.foldl (divStep threshold) acc = acc ++ t := by
  intro rest
  induction rest with
  | nil => exact fun acc => ⟨[], by simp⟩
  | cons c rest ih =>
      intro acc
      rw [List.foldl_cons]
      rcases ih (divStep threshold acc c) with ⟨t, ht⟩
      rw [ht]
      unfold divStep
      by_cases h : (acc.all fun selected =>
          decide (textSimilarity c.text selected.text ≤ threshold)) = true
      · exact ⟨c :: t, by rw [if_pos h, List.append_assoc]; rfl⟩
      · exact ⟨t, by rw [if_neg h]⟩

theorem divFold_subset (threshold : ℚ) (rest acc : List ContextChunk) :
    acc ⊆ rest.foldl (divStep threshold) acc := by
  rcases divFold_append threshold rest acc with ⟨t, ht⟩
  rw [ht]
  exact List.subset_append_left _ _

theorem divFold_pairwise (threshold : ℚ) :
    ∀ (rest acc : List ContextChunk),
      acc.Pairwise (fun a b => textSimilarity a.text b.text ≤ threshold) →
      (rest.foldl (divStep threshold) acc).Pairwise
        (fun a b => textSimilarity a.text b.text ≤ threshold) := by
  intro rest
  induction rest with
  | nil => exact fun acc h => h
  | cons c rest ih =>
      intro acc hacc
      rw [List.foldl_cons]
      apply ih
      unfold divStep
      by_cases h : (acc.all fun selected =>
          decide (textSimilarity c.text selected.text ≤ threshold)) = true
      · rw [if_pos h]
        rw [List.pairwise_append]
        refine ⟨hacc, List.pairwise_singleton _ _, ?_⟩
        intro a ha b hb
        rw [List.mem_singleton] at hb
        subst hb
        have := List.all_eq_true.mp h a ha
        rw [decide_eq_true_eq] at this
        rw [textSimilarity_comm]
        exact this
      · rw [if_neg h]
        exact hacc

theorem divFold_sublist (threshold : ℚ) :
    ∀ (rest acc : List ContextChunk),
      (rest.foldl (divStep threshold) acc).Sublist (acc ++ rest) := by
  intro rest
  induction rest with
  | nil => exact fun acc => by simp
  | cons c rest ih =>
      intro acc
      rw [List.foldl_cons]
      unfold divStep
      by_cases h : (acc.all fun selected =>
          decide (textSimilarity c.text selected.text ≤ threshold)) = true
      · rw [if_pos h]
        have h3 := ih (acc ++ [c])
        rw [List.append_assoc] at h3
        exact h3
      · rw [if_neg h]
        have h1 := ih acc
        have h2 : (acc ++ rest).Sublist (acc ++ c :: rest) :=
          List.Sublist.append_left (List.sublist_cons_self c rest) acc
        exact h1.trans h2

theorem divFold_complete (threshold : ℚ) :
    ∀ (rest acc : List ContextChunk) (c : ContextChunk), c ∈ rest →
      c ∉ rest.foldl (divStep threshold) acc →
      ∃ e ∈ rest.foldl (divStep threshold) acc,
        threshold < textSimilarity c.text e.text := by
  intro rest
  induction rest with
  | nil => intro acc c hc; exact absurd hc (List.not_mem_nil c)
  | cons d rest ih =>
      intro acc c hc hnot
      rw [List.foldl_cons] at hnot ⊢
      rcases List.mem_cons.mp hc with rfl | hc'
      · by_cases h : (acc.all fun selected =>
            decide (textSimilarity c.text selected.text ≤ threshold)) = true
        · exfalso
          apply hnot
          apply divFold_subset threshold rest (divStep threshold acc c)
          unfold divStep
          rw [if_pos h]
          simp
        · rcases List.all_eq_false.mp (Bool.eq_false_iff.mpr h) with ⟨s, hs, hsim⟩
          rw [decide_eq_true_eq] at hsim
          refine ⟨s, ?_, lt_of_not_le hsim⟩
          apply divFold_subset threshold rest (divStep threshold acc c)
          unfold divStep
          rw [if_neg h]
          exact hs
      · exact ih (divStep threshold acc d) c hc' hnot

/-- Claim C8: for every non-empty fused result list and every threshold the
diversity filter keeps the top-ranked result; its output is a sublist of the
input in which no two entries have pairwise word-level Jaccard similarity
above the threshold; every input candidate missing from the output violates
that bound against some kept result; and `performHybridSearch` uses 0.7 as
the threshold when the caller supplies none. -/
theorem C8_applyDiversityFilter (results : List ContextChunk) (threshold : ℚ)
    (hne : results ≠ []) :
    (applyDiversityFilter results threshold).head? = results.head? ∧
    (applyDiversityFilter results threshold).Pairwise
      (fun a b => textSimilarity a.text b.text ≤ threshold) ∧
    (applyDiversityFilter results threshold).Sublist results ∧
    (∀ c ∈ results, c ∉ applyDiversityFilter results threshold →
      ∃ e ∈ applyDiversityFilter results threshold,
        threshold < textSimilarity c.text e.text) ∧
    (∀ dense qa documentIds store topK? failed fallbackDense,
      performHybridSearch dense qa documentIds store topK? none failed fallbackDense
        = performHybridSearch dense qa documentIds store topK? (some 0.7)
            failed fallbackDense) := by
  rcases results with _ | ⟨top, rest⟩
  · exact absurd rfl hne
  rw [applyDiversityFilter_eq_fold]
  refine ⟨?_, ?_, ?_, ?_, ?_⟩
  · rcases divFold_append threshold rest [top] with ⟨t, ht⟩
    rw [ht]
    rfl
  · exact divFold_pairwise threshold rest [top] (List.pairwise_singleton _ _)
  · exact divFold_sublist threshold rest [top]
  · intro c hc hnot
    rcases List.mem_cons.mp hc with hceq | hc'
    · exact absurd (by rw [hceq]; exact divFold_subset threshold rest [top] (by simp)) hnot
    · exact divFold_complete threshold rest [top] c hc' hnot
  · intro dense qa documentIds store topK? failed fallbackDense
    cases failed
    · simp only [performHybridSearch, Bool.false_eq_true, if_false, ite_self]
    · rfl

/-- Witness for C8: the theorem applied at a concrete input. -/
theorem C8_applyDiversityFilter_witness :
    (applyDiversityFilter [⟨"a b", 1, "d", 0⟩, ⟨"c d", 9/10, "d", 1⟩] (7/10)).head?
      = some ⟨"a b", 1, "d", 0⟩ :=
  (C8_applyDiversityFilter [⟨"a b", 1, "d", 0⟩, ⟨"c d", 9/10, "d", 1⟩] (7/10)
    (by simp)).1

/-! ## Claim C1 -/

theorem min_max_absorb (o M x y : ℚ) (hxy : x = y) :
    min (max o (max (min x 1) M)) 1 = min (max o (max y M)) 1 := by
  subst hxy
  rcases le_total x 1 with h | h
  · rw [min_eq_left h]
  · rw [min_eq_right h]
    have h1 : (1:ℚ) ≤ max o (max x M) :=
      le_trans h (le_trans (le_max_left _ _) (le_max_right _ _))
    have h2 : (1:ℚ) ≤ max o (max 1 M) :=
      le_trans (le_max_left _ _) (le_max_right _ _)
    rw [min_eq_right h1, min_eq_right h2]

/-- Claim C1 as frozen is refuted at a concrete request with one retrieved
context: the code's final confidence is 27/50 while the claim's formula
(whose formulaic term lacks the 0.5 base the source adds) yields 1/25. -/
theorem C1_counterexample :
    adaptiveFinalConfidence 0 ⟨"q", "q", Intent.question, [], [], 0⟩
        [⟨"t", 0, "d", 0, ⟨0.8, 30, 0.7⟩⟩] 0 = 27/50 ∧
    claimFinalConfidence 0 ⟨"q", "q", Intent.question, [], [], 0⟩
        [⟨"t", 0, "d", 0, ⟨0.8, 30, 0.7⟩⟩] 0 = 1/25 ∧
    (27/50 : ℚ) ≠ 1/25 := by
  refine ⟨?_, ?_, by norm_num⟩
  · norm_num [adaptiveFinalConfidence, calculateAnswerConfidence, metadataConfidence,
      EnhancedContext.toContextChunk, min_def, max_def]
  · norm_num [claimFinalConfidence, claimFormulaicConfidence, metadataConfidence,
      EnhancedContext.toContextChunk, min_def, max_def]

/-- Claim C1 amended: for every request with at least one retrieved context
the final answer confidence is the maximum of the oracle-reported
confidence, the formulaic confidence and the metadata confidence, capped
at 1 — where the formulaic confidence is
`0.5 + 0.3·qa.confidence + 0.3·meanContextScore + 0.2·min(answerLength/500,1)
+ 0.2·min(contextCount/5,1)` (the source's 0.5 base added; the source's own
cap of this term at 1 is absorbed by the final cap). -/
theorem C1_final_confidence (oracleConfidence : ℚ) (qa : QueryAnalysis)
    (contexts : List EnhancedContext) (answerLength : ℕ) (_hne : contexts ≠ []) :
    adaptiveFinalConfidence oracleConfidence qa contexts answerLength
      = min (max oracleConfidence
          (max (amendedFormulaicConfidence qa
                  (contexts.map EnhancedContext.toContextChunk) answerLength)
            (metadataConfidence contexts))) 1 := by
  simp only [adaptiveFinalConfidence, calculateAnswerConfidence, amendedFormulaicConfidence]
  exact min_max_absorb _ _ _ _ (by ring)

/-- Witness for C1: the theorem applied at a concrete input. -/
theorem C1_final_confidence_witness :
    adaptiveFinalConfidence 0 ⟨"q", "q", Intent.question, [], [], 0⟩
        [⟨"t", 0, "d", 0, ⟨0.8, 30, 0.7⟩⟩] 0
      = min (max 0
          (max (amendedFormulaicConfidence ⟨"q", "q", Intent.question, [], [], 0⟩
                  ([⟨"t", 0, "d", 0, ⟨0.8, 30, 0.7⟩⟩].map EnhancedContext.toContextChunk) 0)
            (metadataConfidence [⟨"t", 0, "d", 0, ⟨0.8, 30, 0.7⟩⟩]))) 1 :=
  C1_final_confidence 0 ⟨"q", "q", Intent.question, [], [], 0⟩
    [⟨"t", 0, "d", 0, ⟨0.8, 30, 0.7⟩⟩] 0 (by simp)

/-! ## Claim C9 -/

theorem mapM_similarity_ok (sqrt : ℚ → ℚ) (qe : List ℚ) (chunks : List DocumentChunk)
    (h : ∀ c ∈ chunks, c.embedding.length = qe.length) :
    (chunks.mapM (fun chunk => do
        let s ← PersistentVectorStore.cosineSimilarity sqrt qe chunk.embedding
        pure (chunk, s)))
      = Except.ok (chunks.map (fun c =>
          (c, PersistentVectorStore.cosineVal sqrt qe c.embedding))) := by
  induction chunks with
  | nil => rfl
  | cons c cs ih =>
      rw [List.mapM_cons]
      have hc : ¬ qe.length ≠ c.embedding.length := by
        rw [h c (by simp)]
        exact fun hne => hne rfl
      have hok : PersistentVectorStore.cosineSimilarity sqrt qe c.embedding
          = Except.ok (PersistentVectorStore.cosineVal sqrt qe c.embedding) := by
        unfold PersistentVectorStore.cosineSimilarity
        rw [if_neg hc]
      rw [hok, ih (fun x hx => h x (by simp [hx]))]
      rfl

/-- Claim C9 as frozen is refuted on its strictness: with two chunks holding
identical embeddings the two similarity scores are equal, so the returned
list is not sorted *strictly* by descending score.  The concrete store below
holds document `d` with two chunks of embedding `[1]`; the query has
embedding `[1]` and the square root is 1 on the values reached. -/
theorem C9_counterexample :
    PersistentVectorStore.searchSimilar (fun _ => 1)
        [("d", [⟨"c1", "t1", [1]⟩, ⟨"c2", "t2", [1]⟩])] [1] "d" 5
      = Except.ok [⟨"c1", "t1", [1]⟩, ⟨"c2", "t2", [1]⟩] ∧
    PersistentVectorStore.cosineVal (fun _ => 1) [1]
        (DocumentChunk.embedding ⟨"c1", "t1", [1]⟩)
      = PersistentVectorStore.cosineVal (fun _ => 1) [1]
        (DocumentChunk.embedding ⟨"c2", "t2", [1]⟩) ∧
    ¬ List.Pairwise (fun c1 c2 : DocumentChunk =>
        PersistentVectorStore.cosineVal (fun _ => 1) [1] c2.embedding
          < PersistentVectorStore.cosineVal (fun _ => 1) [1] c1.embedding)
      [⟨"c1", "t1", [1]⟩, ⟨"c2", "t2", [1]⟩] := by
  have hv : PersistentVectorStore.cosineVal (fun _ => 1) [1] [1] = 1 := by
    norm_num [PersistentVectorStore.cosineVal, dotProduct, normSq]
  refine ⟨?_, by simp, ?_⟩
  · have hget : alGet [("d", [(⟨"c1", "t1", [1]⟩ : DocumentChunk), ⟨"c2", "t2", [1]⟩])] "d"
        = some [⟨"c1", "t1", [1]⟩, ⟨"c2", "t2", [1]⟩] := rfl
    simp only [PersistentVectorStore.searchSimilar, hget]
    rw [mapM_similarity_ok (fun _ => 1) [1] _ (by intro c hc; fin_cases hc; all_goals rfl)]
    simp only [List.map_cons, List.map_nil]
    rw [hv]
    have hsort : sortByDesc (fun p => p.2)
        [((⟨"c1", "t1", [1]⟩ : DocumentChunk), (1:ℚ)), (⟨"c2", "t2", [1]⟩, 1)]
        = [((⟨"c1", "t1", [1]⟩ : DocumentChunk), (1:ℚ)), (⟨"c2", "t2", [1]⟩, 1)] := by
      unfold sortByDesc
      simp only [List.insertionSort, List.orderedInsert]
      rw [if_pos (by unfold keyGe; norm_num)]
    show Except.ok (List.map Prod.fst (List.take 5 (sortByDesc (fun p => p.2)
      [((⟨"c1", "t1", [1]⟩ : DocumentChunk), (1:ℚ)), (⟨"c2", "t2", [1]⟩, 1)]))) = _
    rw [hsort]
    rfl
  · intro hpair
    have h12 := List.rel_of_pairwise_cons hpair (List.mem_singleton_self _)
    simp [hv] at h12

/-- Claim C9 amended: for every query embedding, document id and `topK`,
`searchSimilar` returns the empty list (not an error) when the id is
unknown; and when the id is known and every stored chunk's embedding has the
query's length it returns (without error) at most `topK` chunks sorted in
descending — non-strictly, ties allowed — order of cosine similarity to the
query. -/
theorem C9_searchSimilar (sqrt : ℚ → ℚ) (documents : List (String × List DocumentChunk))
    (queryEmbedding : List ℚ) (documentId : String) (topK : ℕ) :
    (alGet documents documentId = none →
      PersistentVectorStore.searchSimilar sqrt documents queryEmbedding documentId topK
        = Except.ok []) ∧
    (∀ chunks, alGet documents documentId = some chunks →
      (∀ c ∈ chunks, c.embedding.length = queryEmbedding.length) →
      ∃ l, PersistentVectorStore.searchSimilar sqrt documents queryEmbedding documentId topK
          = Except.ok l ∧
        l.length ≤ topK ∧
        l.Pairwise (fun c1 c2 =>
          PersistentVectorStore.cosineVal sqrt queryEmbedding c2.embedding
            ≤ PersistentVectorStore.cosineVal sqrt queryEmbedding c1.embedding)) := by
  constructor
  · intro hnone
    simp only [PersistentVectorStore.searchSimilar, hnone]
  · intro chunks hget h
    simp only [PersistentVectorStore.searchSimilar, hget]
    rw [mapM_similarity_ok sqrt queryEmbedding chunks h]
    refine ⟨_, rfl, ?_, ?_⟩
    · rw [List.length_map]
      exact le_trans (List.length_take_le _ _) (le_refl _)
    · have hsorted := sortByDesc_sorted (fun p : DocumentChunk × ℚ => p.2)
        (chunks.map (fun c => (c, PersistentVectorStore.cosineVal sqrt queryEmbedding c.embedding)))
      have htake := hsorted.sublist (List.take_sublist topK _)
      have hmem : ∀ p ∈ (sortByDesc (fun p : DocumentChunk × ℚ => p.2)
          (chunks.map (fun c =>
            (c, PersistentVectorStore.cosineVal sqrt queryEmbedding c.embedding)))).take topK,
          p.2 = PersistentVectorStore.cosineVal sqrt queryEmbedding p.1.embedding := by
        intro p hp
        have hp2 := (List.take_sublist topK _).subset hp
        have hp3 := (sortByDesc_perm (fun p : DocumentChunk × ℚ => p.2) _).mem_iff.mp hp2
        rcases List.mem_map.mp hp3 with ⟨c, _, rfl⟩
        rfl
      rw [List.pairwise_map]
      refine List.Pairwise.imp_of_mem ?_ htake
      intro a b ha hb hab
      rw [← hmem a ha, ← hmem b hb]
      exact hab

/-- Witness for C9: the theorem applied at concrete inputs, an unknown id
on an empty store and a known id with matching dimensions. -/
theorem C9_searchSimilar_witness :
    PersistentVectorStore.searchSimilar (fun _ => 1) [] [1] "missing" 5 = Except.ok [] ∧
    ∃ l, PersistentVectorStore.searchSimilar (fun _ => 1)
        [("d", [⟨"c1", "t1", [1]⟩])] [1] "d" 5 = Except.ok l ∧
      l.length ≤ 5 ∧
      l.Pairwise (fun c1 c2 : DocumentChunk =>
        PersistentVectorStore.cosineVal (fun _ => 1) [1] c2.embedding
          ≤ PersistentVectorStore.cosineVal (fun _ => 1) [1] c1.embedding) :=
  ⟨(C9_searchSimilar (fun _ => 1) [] [1] "missing" 5).1 rfl,
   (C9_searchSimilar (fun _ => 1) [("d", [⟨"c1", "t1", [1]⟩])] [1] "d" 5).2
     [⟨"c1", "t1", [1]⟩] rfl (by intro c hc; fin_cases hc; all_goals rfl)⟩

/-! ## Claim C7 -/

theorem sparseStats_eq (qa : QueryAnalysis) (textLower : String) :
    sparseStats qa textLower
      = (sparseWeightedMatches qa textLower, sparseMatchedTokenCount qa textLower) := by
  unfold sparseStats sparseWeightedMatches sparseMatchedTokenCount
  have key : ∀ (l : List String) (acc : ℚ × ℕ),
      List.foldl (fun acc keyword =>
        if chars keyword < 3 then acc
        else
          let nMatches := wordMatches textLower keyword
          if nMatches > 0 then
            let importance : ℚ := if qa.keywords.contains keyword then 2 else 1
            (acc.1 + (nMatches : ℚ) * importance, acc.2 + 1)
          else acc) acc l
      = (acc.1 + (l.map (fun kw =>
            if chars kw < 3 then 0
            else (wordMatches textLower kw : ℚ) *
              (if qa.keywords.contains kw then 2 else 1))).sum,
         acc.2 + (l.filter (fun kw =>
            decide (3 ≤ chars kw) && decide (0 < wordMatches textLower kw))).length) := by
    intro l
    induction l with
    | nil => intro acc; simp
    | cons kw l ih =>
        intro acc
        rw [List.foldl_cons, List.map_cons, List.filter_cons, List.sum_cons]
        simp only []
        by_cases h3 : chars kw < 3
        · have hb : (decide (3 ≤ chars kw) && decide (0 < wordMatches textLower kw)) = false := by
            rw [decide_eq_false (by omega : ¬ 3 ≤ chars kw)]
            rfl
          rw [if_pos h3, if_pos h3, hb, ih acc]
          simp
        · rw [if_neg h3, if_neg h3]
          by_cases hm : wordMatches textLower kw > 0
          · have hb : (decide (3 ≤ chars kw) && decide (0 < wordMatches textLower kw)) = true := by
              rw [decide_eq_true (by omega : 3 ≤ chars kw), decide_eq_true hm]
              rfl
            rw [if_pos hm, hb, ih]
            rw [Prod.mk.injEq]
            constructor
            · ring
            · simp only [if_true, List.length_cons]
              omega
          · have hb : (decide (3 ≤ chars kw) && decide (0 < wordMatches textLower kw)) = false := by
              rw [decide_eq_false hm]
              exact Bool.and_false _
            rw [if_neg hm, hb, ih]
            rw [Prod.mk.injEq]
            constructor
            · have hz : (wordMatches textLower kw : ℚ) = 0 := by
                rw [Nat.eq_zero_of_not_pos hm]
                exact Nat.cast_zero
              rw [hz]
              ring
            · simp
  rw [key _ (0, 0)]
  simp

theorem foldl_skip_append {α β : Type _} (p : α → Bool) (g : α → List β) :
    ∀ (l : List α) (init : List β),
      l.foldl (fun rs e => if p e then rs else rs ++ g e) init
        = init ++ (l.map (fun e => if p e then [] else g e)).flatten := by
  intro l
  induction l with
  | nil => intro init; simp
  | cons e l ih =>
      intro init
      rw [List.foldl_cons, List.map_cons]
      by_cases hp : p e = true
      · rw [if_pos hp, if_pos hp, ih]
        simp
      · rw [if_neg hp, if_neg hp, ih]
        simp [List.append_assoc]

theorem performSparseRetrieval_eq (qa : QueryAnalysis)
    (documentIds : Option (List String)) (store : List (String × List StoreChunk)) :
    performSparseRetrieval qa documentIds store
      = sortByDesc (fun c => c.score)
          ((store.map (fun e =>
            if sparseSkip documentIds e.1 then [] else sparseDocResults qa e)).flatten) := by
  unfold performSparseRetrieval
  rw [show (fun (rs : List ContextChunk) (entry : String × List StoreChunk) =>
        let skip : Bool := match documentIds with
          | some ids => ! ids.contains entry.1
          | none => false
        if skip then rs
        else
          rs ++ entry.2.enum.filterMap (fun ic =>
            let text := lowerStr ic.2.text
            let stats := sparseStats qa text
            if stats.2 > 0 then
              some { text := ic.2.text,
                     score := stats.1 * (stats.2 : ℚ)
                       / ((chars text : ℚ) / 100 + ((allKeywords qa).length : ℚ)),
                     documentId := entry.1,
                     chunkIndex := ic.1 }
            else none))
      = fun rs e => if sparseSkip documentIds e.1 then rs else rs ++ sparseDocResults qa e
      from rfl]
  rw [foldl_skip_append (fun e => sparseSkip documentIds e.1) (sparseDocResults qa) store []]
  rfl

theorem mem_sparseDocResults (qa : QueryAnalysis) (entry : String × List StoreChunk)
    (c : ContextChunk) :
    c ∈ sparseDocResults qa entry ↔
      ∃ i chunk, entry.2[i]? = some chunk ∧
        0 < sparseMatchedTokenCount qa (lowerStr chunk.text) ∧
        c = { text := chunk.text,
              score := amendedSparseScore qa chunk.text,
              documentId := entry.1, chunkIndex := i } := by
  unfold sparseDocResults
  rw [List.mem_filterMap]
  constructor
  · rintro ⟨⟨i, chunk⟩, hic, hf⟩
    simp only [sparseStats_eq] at hf
    by_cases hM : 0 < sparseMatchedTokenCount qa (lowerStr chunk.text)
    · rw [if_pos hM] at hf
      refine ⟨i, chunk, List.mk_mem_enum_iff_getElem?.mp hic, hM, ?_⟩
      have hc := Option.some.inj hf
      rw [← hc]
      rfl
    · rw [if_neg hM] at hf
      exact absurd hf (by simp)
  · rintro ⟨i, chunk, hget, hM, rfl⟩
    refine ⟨(i, chunk), List.mk_mem_enum_iff_getElem?.mpr hget, ?_⟩
    simp only [sparseStats_eq]
    rw [if_pos hM]
    rfl

theorem mem_performSparseRetrieval (qa : QueryAnalysis)
    (documentIds : Option (List String)) (store : List (String × List StoreChunk))
    (c : ContextChunk) :
    c ∈ performSparseRetrieval qa documentIds store ↔
      ∃ entry ∈ store, sparseSkip documentIds entry.1 = false ∧
        c ∈ sparseDocResults qa entry := by
  rw [performSparseRetrieval_eq, (sortByDesc_perm _ _).mem_iff, List.mem_flatten]
  constructor
  · rintro ⟨s, hs, hcs⟩
    rcases List.mem_map.mp hs with ⟨entry, hent, rfl⟩
    by_cases hskip : sparseSkip documentIds entry.1 = true
    · rw [if_pos hskip] at hcs
      exact absurd hcs (List.not_mem_nil c)
    · rw [if_neg hskip] at hcs
      exact ⟨entry, hent, Bool.eq_false_iff.mpr hskip, hcs⟩
  · rintro ⟨entry, hent, hskip, hc⟩
    refine ⟨sparseDocResults qa entry, List.mem_map.mpr ⟨entry, hent, ?_⟩, hc⟩
    rw [hskip]
    rfl

/-- Claim C7 as frozen is refuted: for the query "to test" (no keywords, no
entities) against one chunk of text "test", the source's score is 25/51 —
the denominator counts the whole token list including the discarded short
token "to" — while the claim's formula over the deduplicated, short-token-free
token set yields 25/26. -/
theorem C7_counterexample :
    performSparseRetrieval ⟨"to test", "to test", Intent.question, [], [], 1⟩ none
        [("d", [⟨"test", []⟩])]
      = [⟨"test", 25/51, "d", 0⟩] ∧
    claimSparseScore ⟨"to test", "to test", Intent.question, [], [], 1⟩ "test" = 25/26 ∧
    (25/51 : ℚ) ≠ 25/26 := by
  have hkw : allKeywords ⟨"to test", "to test", Intent.question, [], [], 1⟩
      = ["to", "test"] := by decide
  have hw : sparseWeightedMatches ⟨"to test", "to test", Intent.question, [], [], 1⟩
      (lowerStr "test") = 1 := by
    unfold sparseWeightedMatches
    rw [hkw]
    norm_num [show chars "to" = 2 from by decide, show chars "test" = 4 from by decide,
      show wordMatches (lowerStr "test") "test" = 1 from by decide]
  have hm : sparseMatchedTokenCount ⟨"to test", "to test", Intent.question, [], [], 1⟩
      (lowerStr "test") = 1 := by decide
  refine ⟨?_, ?_, by norm_num⟩
  · rw [performSparseRetrieval_eq]
    have hdoc : sparseDocResults ⟨"to test", "to test", Intent.question, [], [], 1⟩
        ("d", [⟨"test", []⟩]) = [⟨"test", 25/51, "d", 0⟩] := by
      unfold sparseDocResults
      rw [show ([⟨"test", []⟩] : List StoreChunk).enum = [(0, ⟨"test", []⟩)] from rfl]
      rw [List.filterMap_cons]
      simp only [sparseStats_eq]
      rw [if_pos (by rw [hm]; norm_num)]
      rw [List.filterMap_nil]
      have hscore : sparseWeightedMatches ⟨"to test", "to test", Intent.question, [], [], 1⟩
            (lowerStr "test")
          * ((sparseMatchedTokenCount ⟨"to test", "to test", Intent.question, [], [], 1⟩
              (lowerStr "test") : ℕ) : ℚ)
          / ((chars (lowerStr "test") : ℚ) / 100
              + ((allKeywords ⟨"to test", "to test", Intent.question, [], [], 1⟩).length : ℚ))
          = 25/51 := by
        rw [hw, hm, hkw]
        norm_num [show chars (lowerStr "test") = 4 from by decide]
      rw [hscore]
    rw [show (([("d", [⟨"test", []⟩])] : List (String × List StoreChunk)).map (fun e =>
          if sparseSkip none e.1 then []
          else sparseDocResults ⟨"to test", "to test", Intent.question, [], [], 1⟩ e)).flatten
        = sparseDocResults ⟨"to test", "to test", Intent.question, [], [], 1⟩
            ("d", [⟨"test", []⟩]) from by simp [sparseSkip]]
    rw [hdoc]
    rfl
  · unfold claimSparseScore
    simp only []
    have hset : claimTokenSet ⟨"to test", "to test", Intent.question, [], [], 1⟩
        = {"test"} := by decide
    rw [hset]
    rw [Finset.sum_singleton]
    rw [show ({"test"} : Finset String).filter
          (fun kw => 0 < wordMatches (lowerStr "test") kw) = {"test"} from by decide]
    norm_num [show wordMatches (lowerStr "test") "test" = 1 from by decide,
      show chars (lowerStr "test") = 4 from by decide,
      show (List.contains [] "test") = false from rfl]

/-- Claim C7 amended: in sparse retrieval every returned chunk has at least
one matching token and its score is
`(Σ weighted matches) · matchedTokenCount / (len(text)/100 + tokenCount)` —
where, unlike the claim's wording, the token collection is the concatenated
*list* (keywords, then entities, then the whitespace-split lower-cased
query) with duplicates retained, tokens shorter than 3 characters are
skipped for matching but still counted in `tokenCount` (the full list
length), and a duplicated token contributes once per occurrence; every
unskipped chunk with at least one matching token is returned. -/
theorem C7_sparse_score (qa : QueryAnalysis) (documentIds : Option (List String))
    (store : List (String × List StoreChunk)) :
    (∀ c ∈ performSparseRetrieval qa documentIds store,
       0 < sparseMatchedTokenCount qa (lowerStr c.text) ∧
       c.score = amendedSparseScore qa c.text) ∧
    (∀ entry ∈ store, sparseSkip documentIds entry.1 = false →
       ∀ i chunk, entry.2[i]? = some chunk →
       0 < sparseMatchedTokenCount qa (lowerStr chunk.text) →
       ∃ c ∈ performSparseRetrieval qa documentIds store,
         c.documentId = entry.1 ∧ c.chunkIndex = i ∧ c.text = chunk.text ∧
         c.score = amendedSparseScore qa chunk.text) := by
  constructor
  · intro c hc
    rcases (mem_performSparseRetrieval qa documentIds store c).mp hc
      with ⟨entry, _, _, hcd⟩
    rcases (mem_sparseDocResults qa entry c).mp hcd with ⟨i, chunk, _, hM, rfl⟩
    exact ⟨hM, rfl⟩
  · intro entry hent hskip i chunk hget hM
    refine ⟨{ text := chunk.text, score := amendedSparseScore qa chunk.text,
              documentId := entry.1, chunkIndex := i }, ?_, rfl, rfl, rfl, rfl⟩
    exact (mem_performSparseRetrieval qa documentIds store _).mpr
      ⟨entry, hent, hskip, (mem_sparseDocResults qa entry _).mpr
        ⟨i, chunk, hget, hM, rfl⟩⟩

/-- Witness for C7: the theorem applied at a concrete store and query. -/
theorem C7_sparse_score_witness :
    ∃ c ∈ performSparseRetrieval ⟨"to test", "to test", Intent.question, [], [], 1⟩ none
        [("d", [⟨"test", []⟩])],
      c.documentId = "d" ∧ c.chunkIndex = 0 ∧ c.text = "test" ∧
      c.score = amendedSparseScore ⟨"to test", "to test", Intent.question, [], [], 1⟩ "test" :=
  (C7_sparse_score ⟨"to test", "to test", Intent.question, [], [], 1⟩ none
      [("d", [⟨"test", []⟩])]).2
    ("d", [⟨"test", []⟩]) (by simp) rfl 0 ⟨"test", []⟩ rfl (by decide)

/-! ## Claim C6 -/

theorem filterAndDeduplicate_mem {newContexts existingContexts : List EnhancedContext}
    {c : EnhancedContext}
    (hc : c ∈ AdaptiveRetrievalEngine.filterAndDeduplicate newContexts existingContexts) :
    ∀ e ∈ existingContexts,
      AdaptiveRetrievalEngine.calculateSimilarity c.text e.text ≤ 0.8 := by
  intro e he
  rcases List.mem_filter.mp hc with ⟨_, hp⟩
  rw [Bool.not_eq_eq_eq_not, Bool.not_true] at hp
  have := List.any_eq_false.mp hp e he
  rw [decide_eq_true_eq] at this
  exact not_lt.mp this

theorem filterAndDeduplicate_count_zero (newContexts existingContexts : List EnhancedContext)
    (c : EnhancedContext)
    (hex : ∃ e ∈ existingContexts,
      AdaptiveRetrievalEngine.calculateSimilarity c.text e.text > 0.8) :
    (AdaptiveRetrievalEngine.filterAndDeduplicate newContexts existingContexts).count c = 0 := by
  rw [List.count_eq_zero]
  intro hc
  rcases hex with ⟨e, he, hgt⟩
  exact absurd hgt (not_lt.mpr (filterAndDeduplicate_mem hc e he))

theorem multiStageGo_count_stable (o : AdaptiveRetrievalEngine.MultiStageOracle) (originalQuery : String) :
    ∀ (remaining stage : ℕ) (q : String) (contexts : List EnhancedContext)
      (c : EnhancedContext),
      (∃ e ∈ contexts, AdaptiveRetrievalEngine.calculateSimilarity c.text e.text > 0.8) →
      ((AdaptiveRetrievalEngine.multiStageGo o originalQuery remaining stage q contexts).2).count c
        = contexts.count c := by
  intro remaining
  induction remaining with
  | zero => intro stage q contexts c _; rfl
  | succ remaining ih =>
      intro stage q contexts c hex
      simp only [AdaptiveRetrievalEngine.multiStageGo]
      generalize hsr : AdaptiveRetrievalEngine.enrichContextsWithMetadata
        (o.retrieveForStage stage q) = sr
      generalize hctx1 : contexts ++ AdaptiveRetrievalEngine.filterAndDeduplicate sr contexts
        = contexts1
      have hcount1 : contexts1.count c = contexts.count c := by
        rw [← hctx1, List.count_append,
          filterAndDeduplicate_count_zero sr contexts c hex, add_zero]
      have hex1 : ∃ e ∈ contexts1,
          AdaptiveRetrievalEngine.calculateSimilarity c.text e.text > 0.8 := by
        rcases hex with ⟨e, he, hgt⟩
        exact ⟨e, by rw [← hctx1]; exact List.mem_append_left _ he, hgt⟩
      by_cases hstop : contexts1.length ≥ 10 ∧
          AdaptiveRetrievalEngine.calculateAvgConfidence contexts1 > 0.8
      · rw [if_pos hstop]
        exact hcount1
      · rw [if_neg hstop]
        simp only []
        rw [ih _ _ _ c hex1, hcount1]

theorem multiStageGo_trace_spec (o : AdaptiveRetrievalEngine.MultiStageOracle) (originalQuery : String) :
    ∀ (remaining stage : ℕ) (q : String) (contexts : List EnhancedContext),
      ∀ entry ∈ (AdaptiveRetrievalEngine.multiStageGo o originalQuery remaining stage q contexts).1,
        (∀ c ∈ AdaptiveRetrievalEngine.filterAndDeduplicate entry.1 entry.2,
           ∀ e ∈ entry.2, AdaptiveRetrievalEngine.calculateSimilarity c.text e.text ≤ 0.8) ∧
        (∀ c ∈ entry.1,
           (∃ e ∈ entry.2, AdaptiveRetrievalEngine.calculateSimilarity c.text e.text > 0.8) →
           ((AdaptiveRetrievalEngine.multiStageGo o originalQuery remaining stage q contexts).2).count c
             = entry.2.count c) := by
  intro remaining
  induction remaining with
  | zero => intro stage q contexts entry hent; exact absurd hent (List.not_mem_nil _)
  | succ remaining ih =>
      intro stage q contexts entry hent
      simp only [AdaptiveRetrievalEngine.multiStageGo] at hent ⊢
      generalize hsr : AdaptiveRetrievalEngine.enrichContextsWithMetadata
        (o.retrieveForStage stage q) = sr at hent ⊢
      generalize hctx1 : contexts ++ AdaptiveRetrievalEngine.filterAndDeduplicate sr contexts
        = contexts1 at hent ⊢
      by_cases hstop : contexts1.length ≥ 10 ∧
          AdaptiveRetrievalEngine.calculateAvgConfidence contexts1 > 0.8
      · rw [if_pos hstop] at hent ⊢
        rcases List.mem_singleton.mp hent with rfl
        refine ⟨fun c hc e he => filterAndDeduplicate_mem hc e he, fun c _ hex => ?_⟩
        simp only []
        rw [← hctx1, List.count_append,
          filterAndDeduplicate_count_zero sr contexts c hex, add_zero]
      · rw [if_neg hstop] at hent ⊢
        simp only [] at hent ⊢
        rcases List.mem_cons.mp hent with rfl | hrest
        · refine ⟨fun c hc e he => filterAndDeduplicate_mem hc e he, fun c _ hex => ?_⟩
          have hex1 : ∃ e ∈ contexts1,
              AdaptiveRetrievalEngine.calculateSimilarity c.text e.text > 0.8 := by
            rcases hex with ⟨e, he, hgt⟩
            exact ⟨e, by rw [← hctx1]; exact List.mem_append_left _ he, hgt⟩
          rw [multiStageGo_count_stable o originalQuery _ _ _ _ c hex1]
          rw [← hctx1, List.count_append,
            filterAndDeduplicate_count_zero sr contexts c hex, add_zero]
        · exact ih _ _ _ entry hrest

/-- Claim C6 amended: in multi-stage retrieval, a chunk returned by a stage
is appended only when its word-level Jaccard similarity to every
already-accumulated chunk is *at most* 0.8 (the source drops at strictly
greater than 0.8, not at 0.8 and above as the claim words it); and a chunk
that is more than 0.8-similar to an accumulated chunk is dropped and never
re-added at any later stage — its multiplicity in the final ranked output
equals its multiplicity in the accumulator at that stage. -/
theorem C6_multiStage (o : AdaptiveRetrievalEngine.MultiStageOracle) (query : QueryAnalysis) (stages? : Option ℕ) :
    ∀ entry ∈ AdaptiveRetrievalEngine.multiStageTrace o query stages?,
      (∀ c ∈ AdaptiveRetrievalEngine.filterAndDeduplicate entry.1 entry.2,
         ∀ e ∈ entry.2, AdaptiveRetrievalEngine.calculateSimilarity c.text e.text ≤ 0.8) ∧
      (∀ c ∈ entry.1,
         (∃ e ∈ entry.2, AdaptiveRetrievalEngine.calculateSimilarity c.text e.text > 0.8) →
         (AdaptiveRetrievalEngine.performMultiStageRetrieval o query stages?).count c
           = entry.2.count c) := by
  intro entry hent
  unfold AdaptiveRetrievalEngine.multiStageTrace at hent
  unfold AdaptiveRetrievalEngine.performMultiStageRetrieval
    AdaptiveRetrievalEngine.rankContextsByRelevance
  have h := multiStageGo_trace_spec o query.originalQuery _ 0 query.expandedQuery [] entry hent
  refine ⟨h.1, fun c hc hex => ?_⟩
  rw [(sortByDesc_perm AdaptiveRetrievalEngine.relevance _).count_eq]
  exact h.2 c hc hex

theorem simEx : AdaptiveRetrievalEngine.calculateSimilarity "a b c d" "a b c d e" = 4/5 := by
  unfold AdaptiveRetrievalEngine.calculateSimilarity textSimilarity
  norm_num [show (wordSet "a b c d" ∩ wordSet "a b c d e").card = 4 from by decide,
    show (wordSet "a b c d" ∪ wordSet "a b c d e").card = 5 from by decide]

theorem msFilterEx :
    AdaptiveRetrievalEngine.filterAndDeduplicate [ecEx2] [ecEx1] = [ecEx2] := by
  unfold AdaptiveRetrievalEngine.filterAndDeduplicate
  have hdec : decide (AdaptiveRetrievalEngine.calculateSimilarity ecEx2.text ecEx1.text > 0.8)
      = false := by
    apply decide_eq_false
    rw [show ecEx2.text = "a b c d" from rfl, show ecEx1.text = "a b c d e" from rfl, simEx]
    norm_num
  simp [hdec]

theorem msRunEx :
    AdaptiveRetrievalEngine.multiStageGo msOracleEx "q" 2 0 "q" []
      = ([([ecEx1], []), ([ecEx2], [ecEx1])], [ecEx1, ecEx2]) := by
  have hstep0 : AdaptiveRetrievalEngine.enrichContextsWithMetadata
      (msOracleEx.retrieveForStage 0 "q") = [ecEx1] := rfl
  have hstep1 : AdaptiveRetrievalEngine.enrichContextsWithMetadata
      (msOracleEx.retrieveForStage 1 "q") = [ecEx2] := rfl
  have hfd0 : AdaptiveRetrievalEngine.filterAndDeduplicate [ecEx1] [] = [ecEx1] := rfl
  have hq : msOracleEx.generateRefinedQuery "q" [ecEx1] = "q" := rfl
  simp [AdaptiveRetrievalEngine.multiStageGo, hstep0, hstep1, hfd0, msFilterEx, hq]

theorem msTraceEx :
    ([ecEx2], [ecEx1]) ∈ AdaptiveRetrievalEngine.multiStageTrace msOracleEx msQueryEx (some 2) := by
  unfold AdaptiveRetrievalEngine.multiStageTrace
  simp only []
  rw [show msQueryEx.originalQuery = "q" from rfl, show msQueryEx.expandedQuery = "q" from rfl]
  rw [show (if (2:ℕ) = 0 then 3 else 2) = 2 from rfl]
  rw [msRunEx]
  simp

/-- Claim C6 as frozen is refuted on its boundary: the stage-1 chunk
(text "a b c d") is exactly 0.8 Jaccard-similar to the already accumulated
stage-0 chunk (text "a b c d e"), yet the source appends it (the drop test
is strictly greater than 0.8) and it reaches the final output of
`performMultiStageRetrieval`. -/
theorem C6_counterexample :
    AdaptiveRetrievalEngine.calculateSimilarity ecEx2.text ecEx1.text = 4/5 ∧
    (4/5 : ℚ) = 0.8 ∧
    ([ecEx2], [ecEx1]) ∈ AdaptiveRetrievalEngine.multiStageTrace msOracleEx msQueryEx (some 2) ∧
    ecEx2 ∈ AdaptiveRetrievalEngine.performMultiStageRetrieval msOracleEx msQueryEx (some 2) := by
  refine ⟨simEx, by norm_num, msTraceEx, ?_⟩
  unfold AdaptiveRetrievalEngine.performMultiStageRetrieval
    AdaptiveRetrievalEngine.rankContextsByRelevance
  simp only []
  rw [show msQueryEx.originalQuery = "q" from rfl, show msQueryEx.expandedQuery = "q" from rfl]
  rw [show (if (2:ℕ) = 0 then 3 else 2) = 2 from rfl]
  rw [msRunEx]
  exact (sortByDesc_perm AdaptiveRetrievalEngine.relevance _).mem_iff.mpr (by simp)

/-- Witness for C6: the theorem applied at the concrete two-stage run, at
the stage-1 trace entry. -/
theorem C6_multiStage_witness :
    AdaptiveRetrievalEngine.calculateSimilarity ecEx2.text ecEx1.text ≤ 0.8 :=
  (C6_multiStage msOracleEx msQueryEx (some 2) ([ecEx2], [ecEx1]) msTraceEx).1
    ecEx2 (by rw [msFilterEx]; exact List.mem_singleton_self _)
    ecEx1 (List.mem_singleton_self _)

theorem alSet_append_of_forall_ne [DecidableEq K] (m : List (K × V)) (k : K) (v : V)
    (h : ∀ kv ∈ m, kv.1 ≠ k) : alSet m k v = m ++ [(k, v)] := by
  unfold alSet
  rw [if_neg]
  intro hany
  rcases List.any_eq_true.mp hany with ⟨kv, hkv, hd⟩
  exact h kv hkv (of_decide_eq_true hd)

theorem alGet_append [DecidableEq K] (m1 m2 : List (K × V)) (k : K) :
    alGet (m1 ++ m2) k
      = match alGet m1 k with
        | some v => some v
        | none => alGet m2 k := by
  unfold alGet
  rw [List.find?_append]
  rcases h : m1.find? (fun kv => kv.1 = k) with _ | kv
  · rw [h]
    rfl
  · rw [h]
    rfl

theorem alGet_keyed_map (g : ContextChunk → ContextChunk) (l : List ContextChunk)
    (k : String × ℕ) :
    alGet (l.map (fun d => (chunkKey d, g d))) k
      = Option.map g (l.find? (fun d => decide (chunkKey d = k))) := by
  induction l with
  | nil => rfl
  | cons d l ih =>
      rw [List.map_cons]
      by_cases hk : chunkKey d = k
      · unfold alGet
        rw [List.find?_cons_of_pos _ (by simpa using hk),
          List.find?_cons_of_pos _ (by simpa using hk)]
        rfl
      · unfold alGet
        rw [List.find?_cons_of_neg _ (by simpa using hk),
          List.find?_cons_of_neg _ (by simpa using hk)]
        exact ih

theorem alGet_keyed_map_eq_none (g : ContextChunk → ContextChunk) (l : List ContextChunk)
    (k : String × ℕ) (h : ∀ d ∈ l, chunkKey d ≠ k) :
    alGet (l.map (fun d => (chunkKey d, g d))) k = none := by
  rw [alGet_keyed_map]
  rw [List.find?_eq_none.mpr (fun d hd => by simpa using h d hd)]
  rfl

theorem denseFold_eq (qa : QueryAnalysis) :
    ∀ (dense : List ContextChunk) (m : List ((String × ℕ) × ContextChunk)),
      (∀ c ∈ dense, ∀ kv ∈ m, kv.1 ≠ chunkKey c) →
      (dense.map chunkKey).Nodup →
      dense.foldl (fun m c => alSet m (chunkKey c) { c with score := c.score * denseWeight qa }) m
        = m ++ dense.map (fun c => (chunkKey c, { c with score := c.score * denseWeight qa })) := by
  intro dense
  induction dense with
  | nil => intro m _ _; simp
  | cons c dense ih =>
      intro m hfresh hnodup
      have hnodup' : (List.map chunkKey dense).Nodup := by
        rw [List.map_cons] at hnodup
        exact hnodup.of_cons
      have hkey : chunkKey c ∉ List.map chunkKey dense := by
        rw [List.map_cons] at hnodup
        exact (List.nodup_cons.mp hnodup).1
      rw [List.foldl_cons,
        alSet_append_of_forall_ne m (chunkKey c) _ (fun kv hkv => hfresh c (by simp) kv hkv)]
      have hfresh2 : ∀ c' ∈ dense,
          ∀ kv ∈ m ++ [(chunkKey c, { c with score := c.score * denseWeight qa })],
          kv.1 ≠ chunkKey c' := by
        intro c' hc' kv hkv
        rcases List.mem_append.mp hkv with hm | hone
        · exact hfresh c' (by simp [hc']) kv hm
        · rcases List.mem_singleton.mp hone with rfl
          intro hkeq
          have hkeq' : chunkKey c = chunkKey c' := hkeq
          exact hkey (by rw [hkeq']; exact List.mem_map_of_mem chunkKey hc')
      rw [ih _ hfresh2 hnodup']
      rw [List.append_assoc]
      rfl

theorem alSet_keyed_update (g : ContextChunk → ContextChunk) (dense : List ContextChunk)
    (rest : List ((String × ℕ) × ContextChunk)) (k : String × ℕ) (v : ContextChunk)
    (hk : ∃ d ∈ dense, chunkKey d = k)
    (hrest : ∀ kv ∈ rest, kv.1 ≠ k) :
    alSet (dense.map (fun d => (chunkKey d, g d)) ++ rest) k v
      = dense.map (fun d => (chunkKey d, if chunkKey d = k then v else g d)) ++ rest := by
  unfold alSet
  rcases hk with ⟨d0, hd0, hd0k⟩
  rw [if_pos (List.any_eq_true.mpr
    ⟨(chunkKey d0, g d0),
     List.mem_append_left _ (List.mem_map_of_mem (fun d => (chunkKey d, g d)) hd0),
     by simpa using hd0k⟩)]
  rw [List.map_append, List.map_map]
  congr 1
  · apply List.map_congr_left
    intro d _
    simp only [Function.comp_apply]
    by_cases hdk : chunkKey d = k
    · rw [if_pos (by simpa using hdk), if_pos hdk, hdk]
    · rw [if_neg (by simpa using hdk), if_neg hdk]
  · apply List.map_congr_left (fun kv hkv => by
      rw [if_neg (by simpa using hrest kv hkv)]) |>.trans
    exact List.map_id _

theorem fuseSearchResults_def (denseResults sparseResults : List ContextChunk)
    (qa : QueryAnalysis) :
    fuseSearchResults denseResults sparseResults qa
      = sortByDesc (fun c => c.score)
          ((sparseResults.foldl (fuseStep denseResults sparseResults qa)
            (denseResults.foldl
              (fun m c => alSet m (chunkKey c) { c with score := c.score * denseWeight qa })
              [])).map Prod.snd) := rfl

theorem fuseStep_phase2 (qa : QueryAnalysis) (dense sparse : List ContextChunk)
    (hd : (dense.map chunkKey).Nodup) (p : List ContextChunk) (s : ContextChunk)
    (hsp : ∀ s' ∈ p, chunkKey s' ≠ chunkKey s) :
    fuseStep dense sparse qa (fusedPhase2 qa dense sparse p) s
      = fusedPhase2 qa dense sparse (p ++ [s]) := by
  have hextrasne : ∀ kv ∈ (p.filter (fun s' =>
        ! dense.any (fun d => decide (chunkKey d = chunkKey s')))).map
        (fun s' => (chunkKey s', { s' with score := s'.score * sparseWeight qa })),
      kv.1 ≠ chunkKey s := by
    intro kv hkv
    rcases List.mem_map.mp hkv with ⟨s', hs', rfl⟩
    exact hsp s' (List.mem_of_mem_filter hs')
  by_cases hin : ∃ d ∈ dense, chunkKey d = chunkKey s
  · rcases hfind : dense.find? (fun d => decide (chunkKey d = chunkKey s)) with _ | d0
    · exfalso
      rcases hin with ⟨d, hdm, hdk⟩
      have := List.find?_eq_none.mp hfind d hdm
      rw [hdk] at this
      simp at this
    · have hd0mem := List.mem_of_find?_eq_some hfind
      have hd0p := List.find?_some hfind
      have hd0key : chunkKey d0 = chunkKey s := of_decide_eq_true hd0p
      have hcond : (p.any (fun s' => decide (chunkKey s' = chunkKey d0))) = false := by
        apply List.any_eq_false.mpr
        intro s' hs' hdec
        exact hsp s' hs' ((of_decide_eq_true hdec).trans hd0key)
      have hget : alGet (fusedPhase2 qa dense sparse p) (chunkKey s)
          = some { d0 with score := d0.score * denseWeight qa } := by
        unfold fusedPhase2
        rw [alGet_append, alGet_keyed_map, hfind]
        simp only [Option.map_some']
        rw [hcond]
        rfl
      unfold fuseStep
      rw [hget]
      simp only []
      unfold fusedPhase2
      rw [alSet_keyed_update _ dense _ (chunkKey s) _ ⟨d0, hd0mem, hd0key⟩ hextrasne]
      congr 1
      · apply List.map_congr_left
        intro d hdm
        by_cases hdk : chunkKey d = chunkKey s
        · have hdd0 : d = d0 :=
            List.inj_on_of_nodup_map hd hdm hd0mem (hdk.trans hd0key.symm)
          rw [if_pos hdk]
          have hany : ((p ++ [s]).any fun s' => decide (chunkKey s' = chunkKey d)) = true := by
            apply List.any_eq_true.mpr
            exact ⟨s, List.mem_append_right _ (List.mem_singleton_self s),
              by simpa using hdk.symm⟩
          rw [hany]
          rw [if_pos rfl]
          rw [← hdd0, ← hdk]
          rfl
        · rw [if_neg hdk]
          have hany : ((p ++ [s]).any fun s' => decide (chunkKey s' = chunkKey d))
              = (p.any fun s' => decide (chunkKey s' = chunkKey d)) := by
            rw [List.any_append]
            rw [show ([s].any fun s' => decide (chunkKey s' = chunkKey d)) = false by
              simp only [List.any_cons, List.any_nil, Bool.or_false]
              exact decide_eq_false (fun hq => hdk hq.symm)]
            exact Bool.or_false _
          rw [hany]
      · rw [List.filter_append]
        rw [show ([s].filter fun s' =>
            ! dense.any (fun d => decide (chunkKey d = chunkKey s'))) = [] by
          rw [List.filter_cons]
          rw [show (! dense.any fun d => decide (chunkKey d = chunkKey s)) = false by
            rcases hin with ⟨d, hdm, hdk⟩
            rw [List.any_eq_true.mpr ⟨d, hdm, by simpa using hdk⟩]
            rfl]
          rfl]
        rw [List.append_nil]
  · have hget : alGet (fusedPhase2 qa dense sparse p) (chunkKey s) = none := by
      unfold fusedPhase2
      rw [alGet_append]
      rw [alGet_keyed_map_eq_none _ _ _ (fun d hdm hdk => hin ⟨d, hdm, hdk⟩)]
      have : ∀ s' ∈ p.filter (fun s' =>
          ! dense.any (fun d => decide (chunkKey d = chunkKey s'))),
          chunkKey s' ≠ chunkKey s :=
        fun s' hs' => hsp s' (List.mem_of_mem_filter hs')
      exact alGet_keyed_map_eq_none _ _ _ this
    unfold fuseStep
    rw [hget]
    simp only []
    have hfresh : ∀ kv ∈ fusedPhase2 qa dense sparse p, kv.1 ≠ chunkKey s := by
      intro kv hkv
      rcases List.mem_append.mp hkv with hdp | hep
      · rcases List.mem_map.mp hdp with ⟨d, hdm, rfl⟩
        exact fun hdk => hin ⟨d, hdm, hdk⟩
      · exact hextrasne kv hep
    rw [alSet_append_of_forall_ne _ _ _ hfresh]
    unfold fusedPhase2
    rw [List.append_assoc]
    congr 1
    · apply List.map_congr_left
      intro d hdm
      have hany : ((p ++ [s]).any fun s' => decide (chunkKey s' = chunkKey d))
          = (p.any fun s' => decide (chunkKey s' = chunkKey d)) := by
        rw [List.any_append]
        rw [show ([s].any fun s' => decide (chunkKey s' = chunkKey d)) = false by
          simp only [List.any_cons, List.any_nil, Bool.or_false]
          exact decide_eq_false (fun hq => hin ⟨d, hdm, hq.symm⟩)]
        exact Bool.or_false _
      rw [hany]
    · rw [List.filter_append]
      rw [show ([s].filter fun s' =>
          ! dense.any (fun d => decide (chunkKey d = chunkKey s'))) = [s] by
        rw [List.filter_cons]
        rw [show (! dense.any fun d => decide (chunkKey d = chunkKey s)) = true by
          rw [show (dense.any fun d => decide (chunkKey d = chunkKey s)) = false by
            apply List.any_eq_false.mpr
            intro d hdm
            exact fun hdec => hin ⟨d, hdm, of_decide_eq_true hdec⟩]
          rfl]
        rfl]
      rw [List.map_append]
      rfl

theorem sparseFold_inv (qa : QueryAnalysis) (dense sparse : List ContextChunk)
    (hd : (dense.map chunkKey).Nodup) (hs : (sparse.map chunkKey).Nodup) :
    ∀ (r p : List ContextChunk), sparse = p ++ r →
      r.foldl (fuseStep dense sparse qa) (fusedPhase2 qa dense sparse p)
        = fusedPhase2 qa dense sparse sparse := by
  intro r
  induction r with
  | nil =>
      intro p hp
      rw [List.append_nil] at hp
      rw [List.foldl_nil, hp]
  | cons s r' ih =>
      intro p hp
      have hsp : ∀ s' ∈ p, chunkKey s' ≠ chunkKey s := by
        intro s' hs' hkeq
        rw [hp, List.map_append, List.map_cons] at hs
        rcases List.nodup_append.mp hs with ⟨_, _, hdisj⟩
        exact hdisj (List.mem_map_of_mem chunkKey hs') (by rw [hkeq]; simp)
      rw [List.foldl_cons, fuseStep_phase2 qa dense sparse hd p s hsp]
      exact ih (p ++ [s]) (by rw [hp, List.append_assoc]; rfl)

theorem fuseSearchResults_eq (qa : QueryAnalysis) (dense sparse : List ContextChunk)
    (hd : (dense.map chunkKey).Nodup) (hs : (sparse.map chunkKey).Nodup) :
    fuseSearchResults dense sparse qa
      = sortByDesc (fun c => c.score) ((fusedPhase2 qa dense sparse sparse).map Prod.snd) := by
  rw [fuseSearchResults_def]
  have hphase0 : fusedPhase2 qa dense sparse []
      = dense.map (fun c => (chunkKey c, { c with score := c.score * denseWeight qa })) := by
    unfold fusedPhase2
    simp
  have hbase : dense.foldl
      (fun m c => alSet m (chunkKey c) { c with score := c.score * denseWeight qa }) []
      = fusedPhase2 qa dense sparse [] := by
    rw [denseFold_eq qa dense [] (by simp) hd, List.nil_append, hphase0]
  rw [hbase, sparseFold_inv qa dense sparse hd hs sparse [] rfl]

/-- Claim C4: in hybrid-search fusion every candidate present in both the
dense and the sparse ranked lists receives exactly
`1/(60+denseRank) + 1/(60+sparseRank)` as its fused score — the 1-based
`findIndex` ranks in the two lists, independent of the raw per-list
scores — while a candidate unique to one list keeps its single-source score
times the intent weight (dense 0.7 / sparse 0.3 for `definition` intent,
0.6 / 0.4 otherwise); hypotheses: each input list mentions each
(documentId, chunkIndex) key at most once, an invariant of the retrieval
passes that produce them. -/
theorem C4_fusion (denseResults sparseResults : List ContextChunk) (qa : QueryAnalysis)
    (hd : (denseResults.map chunkKey).Nodup) (hs : (sparseResults.map chunkKey).Nodup) :
    (denseWeight qa = if qa.intent = Intent.definition then (0.7:ℚ) else 0.6) ∧
    (sparseWeight qa = if qa.intent = Intent.definition then (0.3:ℚ) else 0.4) ∧
    (∀ c ∈ fuseSearchResults denseResults sparseResults qa,
      ((∃ d ∈ denseResults, chunkKey d = chunkKey c) ∧
       (∃ s ∈ sparseResults, chunkKey s = chunkKey c) ∧
       c.score = 1 / (60 + ((denseResults.findIdx (keyMatch (chunkKey c)) + 1 : ℕ) : ℚ))
               + 1 / (60 + ((sparseResults.findIdx (keyMatch (chunkKey c)) + 1 : ℕ) : ℚ)))
      ∨ ((∃ d ∈ denseResults, chunkKey d = chunkKey c ∧ c.score = d.score * denseWeight qa) ∧
         (∀ s ∈ sparseResults, chunkKey s ≠ chunkKey c))
      ∨ ((∃ s ∈ sparseResults, chunkKey s = chunkKey c ∧ c.score = s.score * sparseWeight qa) ∧
         (∀ d ∈ denseResults, chunkKey d ≠ chunkKey c))) ∧
    (∀ d ∈ denseResults, ∃ c ∈ fuseSearchResults denseResults sparseResults qa,
       chunkKey c = chunkKey d) ∧
    (∀ s ∈ sparseResults, ∃ c ∈ fuseSearchResults denseResults sparseResults qa,
       chunkKey c = chunkKey s) := by
  have hmem : ∀ c, c ∈ fuseSearchResults denseResults sparseResults qa ↔
      c ∈ (fusedPhase2 qa denseResults sparseResults sparseResults).map Prod.snd := by
    intro c
    rw [fuseSearchResults_eq qa denseResults sparseResults hd hs,
      (sortByDesc_perm _ _).mem_iff]
  refine ⟨rfl, ?_, ?_, ?_, ?_⟩
  · by_cases hq : qa.intent = Intent.definition <;>
      simp [sparseWeight, denseWeight, hq] <;> norm_num
  · intro c hc
    rw [hmem] at hc
    rcases List.mem_map.mp hc with ⟨kv, hkv, rfl⟩
    rcases List.mem_append.mp hkv with hdp | hep
    · rcases List.mem_map.mp hdp with ⟨d, hdm, rfl⟩
      by_cases hcond : (sparseResults.any fun s' => decide (chunkKey s' = chunkKey d)) = true
      · rw [hcond, if_pos rfl]
        rcases List.any_eq_true.mp hcond with ⟨s, hsm, hsk⟩
        exact Or.inl ⟨⟨d, hdm, rfl⟩, ⟨s, hsm, of_decide_eq_true hsk⟩, rfl⟩
      · rw [Bool.eq_false_iff.mpr hcond]
        rw [if_neg (by simp)]
        refine Or.inr (Or.inl ⟨⟨d, hdm, rfl, rfl⟩, ?_⟩)
        intro s hsm hsk
        exact hcond (List.any_eq_true.mpr ⟨s, hsm, by simpa using hsk⟩)
    · rcases List.mem_map.mp hep with ⟨s, hsf, rfl⟩
      have hsm := List.mem_of_mem_filter hsf
      have hpred := List.of_mem_filter hsf
      rw [Bool.not_eq_eq_eq_not, Bool.not_true] at hpred
      refine Or.inr (Or.inr ⟨⟨s, hsm, rfl, rfl⟩, ?_⟩)
      intro d hdm hdk
      have := List.any_eq_false.mp hpred d hdm
      exact this (by simpa using hdk)
  · intro d hdm
    by_cases hcond : (sparseResults.any fun s' => decide (chunkKey s' = chunkKey d)) = true
    · refine ⟨{ d with score := rrfScoreFor denseResults sparseResults (chunkKey d) }, ?_, rfl⟩
      apply (hmem _).mpr
      apply List.mem_map.mpr
      refine ⟨(chunkKey d, { d with score := rrfScoreFor denseResults sparseResults (chunkKey d) }),
        List.mem_append_left _ (List.mem_map.mpr ⟨d, hdm, ?_⟩), rfl⟩
      rw [hcond, if_pos rfl]
    · refine ⟨{ d with score := d.score * denseWeight qa }, ?_, rfl⟩
      apply (hmem _).mpr
      apply List.mem_map.mpr
      refine ⟨(chunkKey d, { d with score := d.score * denseWeight qa }),
        List.mem_append_left _ (List.mem_map.mpr ⟨d, hdm, ?_⟩), rfl⟩
      rw [Bool.eq_false_iff.mpr hcond, if_neg (by simp)]
  · intro s hsm
    by_cases hin : ∃ d ∈ denseResults, chunkKey d = chunkKey s
    · rcases hin with ⟨d, hdm, hdk⟩
      have hcond : (sparseResults.any fun s' => decide (chunkKey s' = chunkKey d)) = true :=
        List.any_eq_true.mpr ⟨s, hsm, by simpa using hdk.symm⟩
      refine ⟨{ d with score := rrfScoreFor denseResults sparseResults (chunkKey d) }, ?_, hdk⟩
      apply (hmem _).mpr
      apply List.mem_map.mpr
      refine ⟨(chunkKey d, { d with score := rrfScoreFor denseResults sparseResults (chunkKey d) }),
        List.mem_append_left _ (List.mem_map.mpr ⟨d, hdm, ?_⟩), rfl⟩
      rw [hcond, if_pos rfl]
    · have hpred : (! denseResults.any fun d => decide (chunkKey d = chunkKey s)) = true := by
        rw [List.any_eq_false.mpr
          (fun d hdm hdec => hin ⟨d, hdm, of_decide_eq_true hdec⟩)]
        rfl
      refine ⟨{ s with score := s.score * sparseWeight qa }, ?_, rfl⟩
      apply (hmem _).mpr
      apply List.mem_map.mpr
      refine ⟨(chunkKey s, { s with score := s.score * sparseWeight qa }),
        List.mem_append_right _ (List.mem_map.mpr ⟨s, List.mem_filter.mpr ⟨hsm, hpred⟩, rfl⟩),
        rfl⟩

/-- Witness for C4: the theorem applied at concrete one-element dense and
sparse lists sharing one key. -/
theorem C4_fusion_witness :
    ∃ c ∈ fuseSearchResults [⟨"t", 1, "d", 0⟩] [⟨"t", 2, "d", 0⟩]
        ⟨"q", "q", Intent.question, [], [], 1⟩,
      chunkKey c = chunkKey ⟨"t", 1, "d", 0⟩ :=
  (C4_fusion [⟨"t", 1, "d", 0⟩] [⟨"t", 2, "d", 0⟩] ⟨"q", "q", Intent.question, [], [], 1⟩
    (by simp) (by simp)).2.2.2.1 ⟨"t", 1, "d", 0⟩ (List.mem_singleton_self _)

end ForceEqualAI


